import Mathlib

/-!
Shallow embedding of the `act_odoo_data_migrator` Odoo module
(`models/sql_import_job.py`, `models/sql_import_mapping.py`,
`models/password_mixin.py`) for checking its specification.

Conventions of the embedding:
* Python strings are lists of characters (`Str`); Python byte strings and
  other external byte-level types are abstracted where noted.
* Python floats are exact rationals (`ℚ`); every concrete value appearing
  in the claims (`19.50`, `-2⁻²⁴`, …) is exactly representable as a double,
  so the rational model is faithful on the values under discussion.
  `float.is_integer()` is `q.den = 1`, and the `f"{v:.6f}"` fixed-point
  rendering is modelled with round-half-even at six decimal places, which
  is what CPython's float formatting performs on the exact value.
* Python built-ins `int(·)` / `float(·)` on strings are modelled for
  decimal literals with an optional leading minus sign (no exponent
  notation, `inf`/`nan`, underscores or surrounding whitespace); the
  normalization code under verification only ever re-parses its own
  fixed-point decimal output, for which this model is exact.
* `None`-able results are `Option`, raised exceptions are `Except` errors
  or an explicit propagated-exception component.
-/

namespace Migrator

/-- Python strings, modelled as lists of characters. -/
abbrev Str := List Char

/-- The characters of a Lean string literal, as a `Str`. -/
def lit (s : String) : Str := s.data

/-- The character of a decimal digit `d < 10`. -/
def digChar (d : ℕ) : Char := Char.ofNat (48 + d)

/-- Little-endian decimal digits of `n`, with structural fuel
(`natDigitsRev n n` is the digit list of `n`). -/
def natDigitsRev (fuel n : ℕ) : List ℕ :=
  match fuel with
  | 0 => []
  | fuel + 1 => if n = 0 then [] else n % 10 :: natDigitsRev fuel (n / 10)

/-- Decimal rendering of a natural number (Python `str` of a nonnegative
integer). -/
def renderNat (n : ℕ) : Str :=
  if n = 0 then [digChar 0] else ((natDigitsRev n n).map digChar).reverse

/-- Decimal rendering of an integer (Python `str(int)`). -/
def renderInt (i : ℤ) : Str :=
  if i < 0 then '-' :: renderNat i.natAbs else renderNat i.natAbs

/-- Most-significant-first decimal value of a run of digit characters. -/
def digitsVal (l : Str) : ℕ := l.foldl (fun a c => 10 * a + (c.toNat - 48)) 0

/-- Model of Python `int(s)` on an unsigned decimal string: non-empty and
all digits. -/
def parseNat (l : Str) : Option ℕ :=
  if l = [] then none
  else if l.all Char.isDigit then some (digitsVal l) else none

/-- Model of Python `int(s)`: optional leading minus sign, then an
unsigned decimal string. -/
def parseInt (l : Str) : Option ℤ :=
  match l with
  | [] => none
  | c :: rest =>
    if c = '-' then (parseNat rest).map (fun n => -(Int.ofNat n))
    else (parseNat (c :: rest)).map Int.ofNat

theorem digChar_spec : ∀ d < 10, (digChar d).isDigit = true ∧
    (digChar d).toNat = 48 + d ∧ digChar d ≠ '-' ∧ digChar d ≠ '.' := by
  decide

theorem natDigitsRev_lt : ∀ fuel n d, d ∈ natDigitsRev fuel n → d < 10 := by
  intro fuel
  induction fuel with
  | zero => intro n d h; simp [natDigitsRev] at h
  | succ fuel ih =>
    intro n d h
    by_cases hn : n = 0
    · simp [natDigitsRev, hn] at h
    · simp only [natDigitsRev, if_neg hn, List.mem_cons] at h
      rcases h with h | h
      · subst h; omega
      · exact ih _ _ h

theorem natDigitsRev_lt' (fuel n : ℕ) : ∀ d ∈ natDigitsRev fuel n, d < 10 :=
  fun d hd => natDigitsRev_lt fuel n d hd

theorem ofDigits_natDigitsRev : ∀ fuel n, n ≤ fuel →
    Nat.ofDigits 10 (natDigitsRev fuel n) = n := by
  intro fuel
  induction fuel with
  | zero => intro n h; interval_cases n; simp [natDigitsRev]
  | succ fuel ih =>
    intro n h
    by_cases hn : n = 0
    · simp [natDigitsRev, hn]
    · have hdiv : n / 10 ≤ fuel := by
        have := Nat.div_lt_self (Nat.pos_of_ne_zero hn) (by norm_num : (1:ℕ) < 10)
        omega
      simp only [natDigitsRev, if_neg hn, Nat.ofDigits_cons, ih _ hdiv]
      omega

theorem natDigitsRev_ne_nil (fuel n : ℕ) (hn : n ≠ 0) (hf : 1 ≤ fuel) :
    natDigitsRev fuel n ≠ [] := by
  match fuel, hf with
  | fuel + 1, _ => simp [natDigitsRev, hn]

theorem natDigitsRev_length_le : ∀ fuel n k, n < 10 ^ k →
    (natDigitsRev fuel n).length ≤ k := by
  intro fuel
  induction fuel with
  | zero => intro n k _; simp [natDigitsRev]
  | succ fuel ih =>
    intro n k h
    by_cases hn : n = 0
    · simp [natDigitsRev, hn]
    · have hk : k ≠ 0 := by
        rintro rfl
        simp only [pow_zero, Nat.lt_one_iff] at h
        exact hn h
      obtain ⟨k', rfl⟩ := Nat.exists_eq_succ_of_ne_zero hk
      have hd : n / 10 < 10 ^ k' := by
        rw [Nat.div_lt_iff_lt_mul (by norm_num)]
        calc n < 10 ^ (k' + 1) := h
          _ = 10 ^ k' * 10 := by ring
      simp only [natDigitsRev, if_neg hn, List.length_cons]
      exact Nat.succ_le_succ (ih _ _ hd)

theorem digitsVal_go (ds : List ℕ) : ∀ a : ℕ, (∀ d ∈ ds, d < 10) →
    ((ds.map digChar).reverse).foldl (fun a c => 10 * a + (c.toNat - 48)) a =
      a * 10 ^ ds.length + Nat.ofDigits 10 ds := by
  induction ds with
  | nil => intro a _; simp [Nat.ofDigits_nil]
  | cons d rest ih =>
    intro a hlt
    have hd : d < 10 := hlt d (List.mem_cons_self _ _)
    have hrest : ∀ x ∈ rest, x < 10 := fun x hx => hlt x (List.mem_cons_of_mem _ hx)
    simp only [List.map_cons, List.reverse_cons, List.foldl_append, List.foldl_cons,
      List.foldl_nil, ih a hrest]
    rw [(digChar_spec d hd).2.1, Nat.ofDigits_cons]
    simp only [Nat.add_sub_cancel_left, List.length_cons, pow_succ]
    ring

theorem digitsVal_renderNat (n : ℕ) : digitsVal (renderNat n) = n := by
  by_cases hn : n = 0
  · subst hn; decide
  · unfold renderNat digitsVal
    rw [if_neg hn, digitsVal_go _ 0 (natDigitsRev_lt' n n),
      ofDigits_natDigitsRev n n le_rfl]
    ring

theorem renderNat_all_digit (n : ℕ) : ∀ c ∈ renderNat n, c.isDigit = true := by
  intro c hc
  unfold renderNat at hc
  by_cases hn : n = 0
  · rw [if_pos hn] at hc
    simp only [List.mem_singleton] at hc
    subst hc; decide
  · rw [if_neg hn] at hc
    simp only [List.mem_reverse, List.mem_map] at hc
    obtain ⟨d, hd, rfl⟩ := hc
    exact (digChar_spec d (natDigitsRev_lt _ _ _ hd)).1

theorem renderNat_ne_nil (n : ℕ) : renderNat n ≠ [] := by
  unfold renderNat
  by_cases hn : n = 0
  · simp [hn]
  · rw [if_neg hn]
    intro h
    rw [List.reverse_eq_nil_iff, List.map_eq_nil_iff] at h
    exact natDigitsRev_ne_nil n n hn (Nat.one_le_iff_ne_zero.mpr hn) h

theorem parseNat_renderNat (n : ℕ) : parseNat (renderNat n) = some n := by
  unfold parseNat
  rw [if_neg (renderNat_ne_nil n)]
  rw [if_pos (List.all_eq_true.mpr fun c hc => renderNat_all_digit n c hc)]
  rw [digitsVal_renderNat]

theorem digit_ne_dash {c : Char} (h : c.isDigit = true) : c ≠ '-' := by
  intro h'; subst h'; simp [Char.isDigit] at h

theorem digit_ne_dot {c : Char} (h : c.isDigit = true) : c ≠ '.' := by
  intro h'; subst h'; simp [Char.isDigit] at h

theorem renderNat_head_ne_dash (n : ℕ) :
    ∀ c rest, renderNat n = c :: rest → c ≠ '-' := by
  intro c rest h
  have hc : c ∈ renderNat n := by rw [h]; exact List.mem_cons_self _ _
  exact digit_ne_dash (renderNat_all_digit n c hc)

theorem parseInt_cons_ne (c : Char) (rest : Str) (h : c ≠ '-') :
    parseInt (c :: rest) = (parseNat (c :: rest)).map Int.ofNat := by
  show (if c = '-' then (parseNat rest).map (fun n => -(Int.ofNat n))
      else (parseNat (c :: rest)).map Int.ofNat) = _
  rw [if_neg h]

theorem parseInt_renderInt (i : ℤ) : parseInt (renderInt i) = some i := by
  unfold renderInt
  by_cases hi : i < 0
  · rw [if_pos hi]
    show (parseNat (renderNat i.natAbs)).map (fun n => -(Int.ofNat n)) = some i
    rw [parseNat_renderNat]
    simp only [Option.map_some', Option.some.injEq, Int.ofNat_eq_natCast]
    omega
  · rw [if_neg hi]
    obtain ⟨c, rest, hcr⟩ : ∃ c rest, renderNat i.natAbs = c :: rest := by
      cases h : renderNat i.natAbs with
      | nil => exact absurd h (renderNat_ne_nil _)
      | cons c rest => exact ⟨c, rest, rfl⟩
    rw [hcr, parseInt_cons_ne c rest (renderNat_head_ne_dash i.natAbs c rest hcr),
      ← hcr, parseNat_renderNat]
    simp only [Option.map_some', Option.some.injEq, Int.ofNat_eq_natCast]
    omega

/-! ## Python values -/

/-- A calendar date as carried by a Python `datetime.date`. -/
structure PyDate where
  year : ℕ
  month : ℕ
  day : ℕ
deriving DecidableEq

/-- A timestamp as carried by a Python `datetime.datetime`
(microsecond precision). -/
structure PyDateTime where
  year : ℕ
  month : ℕ
  day : ℕ
  hour : ℕ
  minute : ℕ
  second : ℕ
  microsecond : ℕ
deriving DecidableEq

/-- A Python value as it flows through the import and verification code:
`None`, `bool`, `int`, `float` (exact rational), `str`, `datetime.date`
or `datetime.datetime`. -/
inductive PyVal where
  | none
  | bool (b : Bool)
  | int (n : ℤ)
  | float (q : ℚ)
  | str (s : Str)
  | date (d : PyDate)
  | datetime (t : PyDateTime)
deriving DecidableEq

/-- Python truthiness. -/
def truthy : PyVal → Bool
  | .none => false
  | .bool b => b
  | .int n => decide (n ≠ 0)
  | .float q => decide (q ≠ 0)
  | .str s => decide (s ≠ [])
  | .date _ => true
  | .datetime _ => true

/-! ## Python string stripping -/

/-- Python `str.lstrip()`. -/
def lstripWs (l : Str) : Str := l.dropWhile Char.isWhitespace

/-- Python `str.rstrip()`. -/
def rstripWs (l : Str) : Str := (l.reverse.dropWhile Char.isWhitespace).reverse

/-- Python `str.strip()`. -/
def pyStrip (l : Str) : Str := rstripWs (lstripWs l)

theorem dropWhile_idem (p : Char → Bool) (l : Str) :
    (l.dropWhile p).dropWhile p = l.dropWhile p := by
  induction l with
  | nil => rfl
  | cons c rest ih =>
    by_cases h : p c
    · simp only [List.dropWhile_cons, if_pos h]
      exact ih
    · simp [List.dropWhile_cons, h]

theorem dropWhile_head_not (p : Char → Bool) (l : Str) :
    ∀ c rest, l.dropWhile p = c :: rest → p c = false := by
  induction l with
  | nil => intro c rest h; simp at h
  | cons d t ih =>
    intro c rest h
    by_cases hd : p d
    · rw [List.dropWhile_cons, if_pos hd] at h
      exact ih c rest h
    · rw [List.dropWhile_cons, if_neg hd] at h
      rw [← (List.cons.injEq ..).mp h |>.1]
      exact Bool.eq_false_iff.mpr hd

theorem rstripWs_append_ws (l : Str) :
    l = rstripWs l ++ ((l.reverse.takeWhile Char.isWhitespace).reverse) := by
  unfold rstripWs
  conv_lhs => rw [← List.reverse_reverse l,
    ← List.takeWhile_append_dropWhile (p := Char.isWhitespace) (l := l.reverse)]
  rw [List.reverse_append]

theorem rstripWs_idem (l : Str) : rstripWs (rstripWs l) = rstripWs l := by
  unfold rstripWs
  rw [List.reverse_reverse, dropWhile_idem]

theorem lstripWs_rstripWs_lstripWs (l : Str) :
    lstripWs (rstripWs (lstripWs l)) = rstripWs (lstripWs l) := by
  cases h : rstripWs (lstripWs l) with
  | nil => rfl
  | cons c t =>
    have hm : lstripWs l =
        c :: (t ++ ((lstripWs l).reverse.takeWhile Char.isWhitespace).reverse) := by
      conv_lhs => rw [rstripWs_append_ws (lstripWs l)]
      rw [h, List.cons_append]
    have hc : Char.isWhitespace c = false :=
      dropWhile_head_not Char.isWhitespace l c _ hm
    unfold lstripWs
    rw [List.dropWhile_cons, if_neg (by simp [hc])]

theorem pyStrip_idem (l : Str) : pyStrip (pyStrip l) = pyStrip l := by
  unfold pyStrip
  rw [lstripWs_rstripWs_lstripWs, rstripWs_idem]

/-- Python `str.rstrip(ch)` for a single stripped character. -/
def rstripChar (ch : Char) (l : Str) : Str :=
  (l.reverse.dropWhile (fun c => c == ch)).reverse

theorem dropWhile_replicate_append (p : Char → Bool) (ch : Char) (hp : p ch = true)
    (k : ℕ) (x : Str) :
    (List.replicate k ch ++ x).dropWhile p = x.dropWhile p := by
  induction k with
  | zero => rfl
  | succ k ih =>
    rw [List.replicate_succ, List.cons_append, List.dropWhile_cons, if_pos hp]
    exact ih

theorem rstripChar_append_replicate (ch : Char) (u : Str) (k : ℕ) :
    rstripChar ch (u ++ List.replicate k ch) = rstripChar ch u := by
  unfold rstripChar
  rw [List.reverse_append, List.reverse_replicate,
    dropWhile_replicate_append _ ch (by simp) k]

theorem rstripChar_snoc_ne (ch : Char) (u : Str) (d : Char) (h : d ≠ ch) :
    rstripChar ch (u ++ [d]) = u ++ [d] := by
  unfold rstripChar
  rw [List.reverse_append]
  show ((d :: u.reverse).dropWhile fun c => c == ch).reverse = _
  rw [List.dropWhile_cons, if_neg (by simp [h])]
  rw [List.reverse_cons, List.reverse_reverse]

/-! ## Decimal value of digit strings -/

/-- The fold of `digitsVal` with an explicit accumulator. -/
def digitsValFrom (a : ℕ) (l : Str) : ℕ :=
  l.foldl (fun a c => 10 * a + (c.toNat - 48)) a

theorem digitsValFrom_zero (l : Str) : digitsValFrom 0 l = digitsVal l := rfl

theorem digitsValFrom_append (a : ℕ) (u v : Str) :
    digitsValFrom a (u ++ v) = digitsValFrom (digitsValFrom a u) v :=
  List.foldl_append ..

theorem digitsValFrom_replicate_zero (a k : ℕ) :
    digitsValFrom a (List.replicate k '0') = a * 10 ^ k := by
  induction k generalizing a with
  | zero => simp [digitsValFrom]
  | succ k ih =>
    rw [List.replicate_succ]
    show digitsValFrom (10 * a + ('0'.toNat - 48)) (List.replicate k '0') = _
    rw [ih]
    show (10 * a + 0) * 10 ^ k = a * 10 ^ (k + 1)
    ring

theorem digitsValFrom_eq (a : ℕ) (l : Str) :
    digitsValFrom a l = a * 10 ^ l.length + digitsVal l := by
  induction l generalizing a with
  | nil => simp [digitsValFrom, digitsVal]
  | cons c t ih =>
    show digitsValFrom (10 * a + (c.toNat - 48)) t = _
    rw [ih]
    have h0 : digitsVal (c :: t) = digitsValFrom (10 * 0 + (c.toNat - 48)) t := rfl
    rw [h0, ih, List.length_cons, pow_succ]
    ring

/-! ## Rendering of dates and paddings -/

/-- Zero-pad a digit string on the left to width `k`
(`strftime` zero padding). -/
def padLeft (k : ℕ) (s : Str) : Str := List.replicate (k - s.length) '0' ++ s

theorem padLeft_ne_nil (k : ℕ) (s : Str) (h : s ≠ []) : padLeft k s ≠ [] := by
  unfold padLeft
  simp [h]

theorem digitsVal_padLeft (k : ℕ) (s : Str) : digitsVal (padLeft k s) = digitsVal s := by
  unfold padLeft
  rw [← digitsValFrom_zero, digitsValFrom_append, digitsValFrom_replicate_zero]
  simp [digitsValFrom_zero]

theorem length_padLeft (k : ℕ) (s : Str) (h : s.length ≤ k) :
    (padLeft k s).length = k := by
  unfold padLeft
  rw [List.length_append, List.length_replicate]
  omega

theorem padLeft_all_digit (k : ℕ) (s : Str) (h : ∀ c ∈ s, c.isDigit = true) :
    ∀ c ∈ padLeft k s, c.isDigit = true := by
  intro c hc
  unfold padLeft at hc
  rw [List.mem_append] at hc
  rcases hc with hc | hc
  · rw [List.eq_of_mem_replicate hc]; decide
  · exact h c hc

/-- The date rendering `strftime('%Y-%m-%d')`. -/
def renderDate (d : PyDate) : Str :=
  padLeft 4 (renderNat d.year) ++
    '-' :: (padLeft 2 (renderNat d.month) ++ '-' :: padLeft 2 (renderNat d.day))

/-- The timestamp rendering `strftime('%Y-%m-%d %H:%M:%S.%f')[:-3]`: the millisecond-truncated
timestamp used by datetime normalization. -/
def renderDateTimeMs (t : PyDateTime) : Str :=
  renderDate ⟨t.year, t.month, t.day⟩ ++ ' ' ::
    (padLeft 2 (renderNat t.hour) ++ ':' ::
      (padLeft 2 (renderNat t.minute) ++ ':' ::
        (padLeft 2 (renderNat t.second) ++ '.' ::
          (padLeft 6 (renderNat t.microsecond)).take 3)))

/-- Python `str(datetime)`: ISO format with a space separator, the
microsecond part omitted when zero. -/
def renderDateTimeFull (t : PyDateTime) : Str :=
  renderDate ⟨t.year, t.month, t.day⟩ ++ ' ' ::
    (padLeft 2 (renderNat t.hour) ++ ':' ::
      (padLeft 2 (renderNat t.minute) ++ ':' ::
        (padLeft 2 (renderNat t.second) ++
          (if t.microsecond = 0 then [] else '.' :: padLeft 6 (renderNat t.microsecond)))))

theorem renderDate_ne_nil (d : PyDate) : renderDate d ≠ [] := by
  unfold renderDate
  simp

theorem renderDateTimeMs_ne_nil (t : PyDateTime) : renderDateTimeMs t ≠ [] := by
  unfold renderDateTimeMs
  simp [renderDate_ne_nil]

theorem renderDateTimeFull_ne_nil (t : PyDateTime) : renderDateTimeFull t ≠ [] := by
  unfold renderDateTimeFull
  simp [renderDate_ne_nil]

theorem renderInt_ne_nil (i : ℤ) : renderInt i ≠ [] := by
  unfold renderInt
  by_cases h : i < 0
  · simp [h]
  · rw [if_neg h]; exact renderNat_ne_nil _

/-- Python `str(value)`. The float repr `fr` is kept abstract: CPython's
shortest-roundtrip float repr is never the empty string, which is the only
property any theorem needs of it. -/
def pyStr (fr : ℚ → Str) : PyVal → Str
  | .none => lit ("None")
  | .bool true => lit ("True")
  | .bool false => lit ("False")
  | .int n => renderInt n
  | .float q => fr q
  | .str s => s
  | .date d => renderDate d
  | .datetime t => renderDateTimeFull t


/-! ## Python float formatting and parsing -/

/-- Round-half-even to the nearest integer: the rounding CPython applies
to the exact value of a double in `f"{v:.6f}"`. -/
def rhe (q : ℚ) : ℤ :=
  if q - ⌊q⌋ < 1/2 then ⌊q⌋
  else if 1/2 < q - ⌊q⌋ then ⌊q⌋ + 1
  else if Even ⌊q⌋ then ⌊q⌋ else ⌊q⌋ + 1

/-- The fixed-point rendering `f"{v:.6f}"`: the sign of the value, then the magnitude rounded to six
decimal places. -/
def fmt6 (q : ℚ) : Str :=
  (if q < 0 then ['-'] else []) ++
    renderNat ((rhe (q * 1000000)).natAbs / 1000000) ++
    '.' :: padLeft 6 (renderNat ((rhe (q * 1000000)).natAbs % 1000000))

/-- The stripping `.rstrip('0').rstrip('.')` as applied to the fixed-point rendering. -/
def stripFloatStr (s : Str) : Str := rstripChar '.' (rstripChar '0' s)

/-- The float branch of the normalizers (sql_import_job.py lines 360-365):
`str(int(v))` when the value is integral, else the stripped six-decimal
fixed-point rendering. -/
def normFloatVal (q : ℚ) : Str :=
  if q.den = 1 then renderInt q.num else stripFloatStr (fmt6 q)

/-- The cast `(n : ℚ)` as a named function (keeps `Option.map` elaboration plain). -/
def qOfNat (n : ℕ) : ℚ := n

/-- Split at the first `'.'`: the segment before it and, when a dot is
present, the remainder after it. -/
def breakDot : Str → Str × Option Str
  | [] => ([], Option.none)
  | c :: rest =>
    if c = '.' then ([], some rest)
    else
      let p := breakDot rest
      (c :: p.1, p.2)

/-- Model of Python `float(s)` on unsigned fixed-point decimal literals:
`digits`, `digits.`, `.digits` or `digits.digits`. -/
def parseUFloat (l : Str) : Option ℚ :=
  match breakDot l with
  | (ip, Option.none) => (parseNat ip).map qOfNat
  | (ip, some fp) =>
    if ip = [] ∧ fp = [] then Option.none
    else if '.' ∈ fp then Option.none
    else if ip.all Char.isDigit ∧ fp.all Char.isDigit then
      some (qOfNat (digitsVal ip) + qOfNat (digitsVal fp) / 10 ^ fp.length)
    else Option.none

/-- Model of Python `float(s)`: optional leading minus sign, then an
unsigned fixed-point literal. -/
def parseFloat (l : Str) : Option ℚ :=
  match l with
  | [] => Option.none
  | c :: rest =>
    if c = '-' then (parseUFloat rest).map Neg.neg
    else parseUFloat (c :: rest)

/-- Python `int(·)` truncation of a float toward zero. -/
def ratTrunc (q : ℚ) : ℤ := if q < 0 then -⌊-q⌋ else ⌊q⌋

/-- Python `int(value)` over the modelled value kinds; `Option.none`
stands for a raised `ValueError`/`TypeError`. -/
def pyInt : PyVal → Option ℤ
  | .none => Option.none
  | .bool b => some (if b then 1 else 0)
  | .int n => some n
  | .float q => some (ratTrunc q)
  | .str s => parseInt s
  | .date _ => Option.none
  | .datetime _ => Option.none

/-- Python `float(value)` over the modelled value kinds. -/
def pyFloat : PyVal → Option ℚ
  | .none => Option.none
  | .bool b => some (if b then 1 else 0)
  | .int n => some (n : ℚ)
  | .float q => some q
  | .str s => parseFloat s
  | .date _ => Option.none
  | .datetime _ => Option.none

/-! ## The normalizers -/

def tBool : Str := lit ("bool")

def tInt : Str := lit ("int")

def tFloat : Str := lit ("float")

def tStr : Str := lit ("str")

def tEmail : Str := lit ("email")

def tDate : Str := lit ("date")

def tDatetime : Str := lit ("datetime")

def tDirect : Str := lit ("direct")

def sNULL : Str := lit ("NULL")

/-- The normalizer `_normalize_value_for_comparison` (sql_import_job.py lines 347-383).
A `date` value under the `datetime` transform is rendered as its
midnight timestamp (the `timetuple` zeros `strftime` would supply). -/
def normalizeValueForComparison (fr : ℚ → Str) (value : PyVal) (transform : Str) : Str :=
  if value = PyVal.none ∨ value = PyVal.bool false then sNULL
  else if transform = tBool then
    (if truthy value then lit ("1") else lit ("0"))
  else if transform = tInt then
    (match pyInt value with
     | some n => renderInt n
     | Option.none => sNULL)
  else if transform = tFloat then
    (match pyFloat value with
     | some q => normFloatVal q
     | Option.none => sNULL)
  else if transform = tStr ∨ transform = tEmail then
    (if value = PyVal.str [] then []
     else if truthy value then pyStrip (pyStr fr value) else sNULL)
  else if transform = tDate ∨ transform = tDatetime then
    (match value with
     | .date d =>
       if transform = tDate then renderDate d
       else renderDateTimeMs ⟨d.year, d.month, d.day, 0, 0, 0, 0⟩
     | .datetime t =>
       if transform = tDate then renderDate ⟨t.year, t.month, t.day⟩
       else renderDateTimeMs t
     | _ => if truthy value then pyStr fr value else sNULL)
  else
    (if value = PyVal.str [] then []
     else if truthy value then pyStrip (pyStr fr value) else sNULL)

/-- The normalizer `_normalize_target_value` (sql_import_job.py lines 535-570). -/
def normalizeTargetValue (fr : ℚ → Str) (value : PyVal) (transform : Str) : Str :=
  if value = PyVal.none ∨ value = PyVal.bool false then sNULL
  else if transform = tBool then
    (if truthy value then lit ("1") else lit ("0"))
  else if transform = tInt then
    (match pyInt value with
     | some n => renderInt n
     | Option.none => sNULL)
  else if transform = tFloat then
    (match pyFloat value with
     | some q => normFloatVal q
     | Option.none => sNULL)
  else if transform = tStr then
    (if value = PyVal.str [] then [] else pyStrip (pyStr fr value))
  else if transform = tDate ∨ transform = tDatetime then
    (if truthy value then
      (match value with
       | .date d =>
         if transform = tDate then renderDate d
         else renderDateTimeMs ⟨d.year, d.month, d.day, 0, 0, 0, 0⟩
       | .datetime t =>
         if transform = tDate then renderDate ⟨t.year, t.month, t.day⟩
         else renderDateTimeMs t
       | _ => pyStr fr value)
     else sNULL)
  else
    (if value = PyVal.str [] then [] else pyStrip (pyStr fr value))


/-! ## Round-trip facts about the float rendering -/

theorem rhe_intCast (n : ℤ) : rhe (n : ℚ) = n := by
  unfold rhe
  rw [Int.floor_intCast]
  norm_num

theorem rhe_mem (q : ℚ) : rhe q = ⌊q⌋ ∨ rhe q = ⌊q⌋ + 1 := by
  unfold rhe
  split_ifs <;> simp

theorem rhe_nonneg (q : ℚ) (h : 0 ≤ q) : 0 ≤ rhe q := by
  rcases rhe_mem q with h' | h' <;> rw [h'] <;>
    have := Int.floor_nonneg.mpr h <;> omega

theorem rhe_nonpos (q : ℚ) (h : q ≤ 0) : rhe q ≤ 0 := by
  unfold rhe
  have hf : ⌊q⌋ ≤ 0 := Int.floor_nonpos h
  split_ifs with h1 h2 h3
  · exact hf
  · rcases lt_or_eq_of_le hf with hlt | heq
    · omega
    · exfalso
      rw [heq] at h2
      have : q - ⌊q⌋ ≤ 0 := by
        rw [heq]
        simpa using h
      nlinarith
  · exact hf
  · rcases lt_or_eq_of_le hf with hlt | heq
    · omega
    · exfalso
      have : q - ⌊q⌋ ≤ 0 := by
        rw [heq]
        simpa using h
      nlinarith

theorem den_div_M_eq_one_iff (N : ℤ) :
    (((N : ℚ)) / 1000000).den = 1 ↔ (1000000 : ℤ) ∣ N := by
  rw [Rat.den_eq_one_iff]
  constructor
  · intro h
    refine ⟨((N : ℚ) / 1000000).num, ?_⟩
    have h2 : (N : ℚ) = 1000000 * (((N : ℚ) / 1000000).num : ℚ) := by
      rw [h, mul_comm, div_mul_cancel₀ _ (by norm_num : (1000000 : ℚ) ≠ 0)]
    exact_mod_cast h2
  · rintro ⟨z, rfl⟩
    have h2 : ((1000000 * z : ℤ) : ℚ) / 1000000 = (z : ℚ) := by
      push_cast
      field_simp
    rw [h2]
    simp [Rat.num_intCast]

theorem renderNat_length_le (n k : ℕ) (hn : n < 10 ^ k) (hk : 1 ≤ k) :
    (renderNat n).length ≤ k := by
  unfold renderNat
  by_cases h : n = 0
  · simp [h, hk]
  · rw [if_neg h, List.length_reverse, List.length_map]
    exact natDigitsRev_length_le n n k hn

theorem rstripChar_decomp (ch : Char) (l : Str) :
    ∃ k, l = rstripChar ch l ++ List.replicate k ch := by
  refine ⟨(l.reverse.takeWhile (fun c => c == ch)).length, ?_⟩
  unfold rstripChar
  have h1 : l.reverse.takeWhile (fun c => c == ch) =
      List.replicate (l.reverse.takeWhile (fun c => c == ch)).length ch :=
    List.eq_replicate_of_mem (fun b hb => by
      have := List.mem_takeWhile_imp hb
      simpa using this)
  conv_lhs => rw [← List.reverse_reverse l,
    ← List.takeWhile_append_dropWhile (fun c => c == ch) l.reverse]
  rw [List.reverse_append]
  congr 1
  rw [h1, List.reverse_replicate, List.length_replicate]

theorem rstripChar_getLast_ne (ch : Char) (l u : Str) (d : Char)
    (h : rstripChar ch l = u ++ [d]) : d ≠ ch := by
  unfold rstripChar at h
  have h2 : l.reverse.dropWhile (fun c => c == ch) = (u ++ [d]).reverse := by
    rw [← h, List.reverse_reverse]
  rw [List.reverse_append] at h2
  simp only [List.reverse_singleton, List.singleton_append] at h2
  have := dropWhile_head_not (fun c => c == ch) l.reverse d u.reverse h2
  simpa using this


theorem breakDot_no_dot (l : Str) (h : '.' ∉ l) : breakDot l = (l, Option.none) := by
  induction l with
  | nil => rfl
  | cons c rest ih =>
    have hc : c ≠ '.' := fun he => h (he ▸ List.mem_cons_self c rest)
    have hr : '.' ∉ rest := fun hm => h (List.mem_cons_of_mem c hm)
    simp only [breakDot, if_neg hc, ih hr]

theorem breakDot_append_dot (u v : Str) (h : '.' ∉ u) :
    breakDot (u ++ '.' :: v) = (u, some v) := by
  induction u with
  | nil => simp [breakDot]
  | cons c rest ih =>
    have hc : c ≠ '.' := fun he => h (he ▸ List.mem_cons_self c rest)
    have hr : '.' ∉ rest := fun hm => h (List.mem_cons_of_mem c hm)
    simp only [List.cons_append, breakDot, if_neg hc, List.append_eq, ih hr]

theorem parseUFloat_digits (l : Str) (hne : l ≠ []) (hd : ∀ c ∈ l, c.isDigit = true) :
    parseUFloat l = some (qOfNat (digitsVal l)) := by
  unfold parseUFloat
  rw [breakDot_no_dot l (fun hm => digit_ne_dot (hd '.' hm) rfl)]
  show (parseNat l).map qOfNat = _
  unfold parseNat
  rw [if_neg hne, if_pos (List.all_eq_true.mpr hd)]
  rfl

theorem parseUFloat_with_dot (u v : Str) (hu : ∀ c ∈ u, c.isDigit = true)
    (hv : ∀ c ∈ v, c.isDigit = true) (hune : u ≠ []) :
    parseUFloat (u ++ '.' :: v) =
      some (qOfNat (digitsVal u) + qOfNat (digitsVal v) / 10 ^ v.length) := by
  unfold parseUFloat
  rw [breakDot_append_dot u v (fun hm => digit_ne_dot (hu '.' hm) rfl)]
  show (if u = [] ∧ v = [] then Option.none
    else if '.' ∈ v then Option.none
    else if u.all Char.isDigit ∧ v.all Char.isDigit then
      some (qOfNat (digitsVal u) + qOfNat (digitsVal v) / 10 ^ v.length)
    else Option.none) = _
  rw [if_neg (by simp [hune]),
    if_neg (fun hm => digit_ne_dot (hv '.' hm) rfl),
    if_pos ⟨List.all_eq_true.mpr hu, List.all_eq_true.mpr hv⟩]

theorem parseFloat_cons_ne (c : Char) (rest : Str) (h : c ≠ '-') :
    parseFloat (c :: rest) = parseUFloat (c :: rest) := by
  show (if c = '-' then (parseUFloat rest).map Neg.neg
    else parseUFloat (c :: rest)) = _
  rw [if_neg h]

theorem parseFloat_neg (rest : Str) :
    parseFloat ('-' :: rest) = (parseUFloat rest).map Neg.neg := by
  show (if ('-' : Char) = '-' then (parseUFloat rest).map Neg.neg
    else parseUFloat ('-' :: rest)) = _
  rw [if_pos rfl]

theorem renderNat_snoc (n : ℕ) :
    ∃ u d, renderNat n = u ++ [d] ∧ d.isDigit = true := by
  have h := renderNat_ne_nil n
  exact ⟨(renderNat n).dropLast, (renderNat n).getLast h,
    (List.dropLast_append_getLast h).symm,
    renderNat_all_digit n _ (List.getLast_mem h)⟩

theorem stripFloatStr_zero_frac (X : Str)
    (hX : ∃ u d, X = u ++ [d] ∧ d.isDigit = true) :
    stripFloatStr (X ++ '.' :: List.replicate 6 '0') = X := by
  obtain ⟨u, d, hXd, hd⟩ := hX
  unfold stripFloatStr
  have h1 : X ++ '.' :: List.replicate 6 '0' =
      (X ++ ['.']) ++ List.replicate 6 '0' := by simp
  rw [h1, rstripChar_append_replicate]
  have h3 : rstripChar '0' (X ++ ['.']) = X ++ ['.'] :=
    rstripChar_snoc_ne '0' X '.' (by decide)
  rw [h3, show X ++ ['.'] = X ++ List.replicate 1 '.' from rfl,
    rstripChar_append_replicate, hXd]
  exact rstripChar_snoc_ne '.' u d (digit_ne_dot hd)

theorem stripFloatStr_pos_frac (X fp : Str)
    (hfp : ∀ c ∈ fp, c.isDigit = true) (hval : digitsVal fp ≠ 0) :
    ∃ fred k, fp = fred ++ List.replicate k '0' ∧ fred ≠ [] ∧
      (∀ c ∈ fred, c.isDigit = true) ∧
      digitsVal fp = digitsVal fred * 10 ^ k ∧
      (∀ u d, fred = u ++ [d] → d ≠ '0') ∧
      stripFloatStr (X ++ '.' :: fp) = X ++ '.' :: fred := by
  obtain ⟨k, hk⟩ := rstripChar_decomp '0' fp
  refine ⟨rstripChar '0' fp, k, hk, ?_, ?_, ?_, ?_, ?_⟩
  · intro hnil
    rw [hnil, List.nil_append] at hk
    apply hval
    rw [hk, ← digitsValFrom_zero, digitsValFrom_replicate_zero]
    ring
  · intro c hc
    apply hfp
    rw [hk]
    exact List.mem_append_left _ hc
  · conv_lhs => rw [hk]
    rw [← digitsValFrom_zero, digitsValFrom_append,
      digitsValFrom_replicate_zero, digitsValFrom_zero]
  · intro u d hud
    exact rstripChar_getLast_ne '0' fp u d hud
  · have hne : rstripChar '0' fp ≠ [] := by
      intro hnil
      rw [hnil, List.nil_append] at hk
      apply hval
      rw [hk, ← digitsValFrom_zero, digitsValFrom_replicate_zero]
      ring
    obtain ⟨u, d, hud⟩ : ∃ u d, rstripChar '0' fp = u ++ [d] :=
      ⟨_, _, (List.dropLast_append_getLast hne).symm⟩
    have hd0 : d ≠ '0' := rstripChar_getLast_ne '0' fp u d hud
    have hddig : d.isDigit = true := by
      apply hfp
      rw [hk, hud]
      exact List.mem_append_left _ (List.mem_append_right _ (List.mem_singleton_self d))
    unfold stripFloatStr
    have h1 : X ++ '.' :: fp = (X ++ '.' :: rstripChar '0' fp) ++ List.replicate k '0' := by
      conv_lhs => rw [hk]
      simp
    rw [h1, rstripChar_append_replicate]
    have h2 : X ++ '.' :: rstripChar '0' fp = (X ++ '.' :: u) ++ [d] := by
      rw [hud]; simp
    rw [h2, rstripChar_snoc_ne '0' _ d hd0,
      rstripChar_snoc_ne '.' _ d (digit_ne_dot hddig)]


theorem padLeft6_renderNat_zero : padLeft 6 (renderNat 0) = List.replicate 6 '0' := by
  decide

theorem cast_div_add_mod (a : ℕ) :
    qOfNat (a / 1000000) + qOfNat (a % 1000000) / 1000000 = (a : ℚ) / 1000000 := by
  unfold qOfNat
  have h2 : a / 1000000 * 1000000 + a % 1000000 = a := by omega
  field_simp
  exact_mod_cast congrArg (fun n : ℕ => (n : ℚ)) h2

theorem frac_scale (v k len : ℕ) (h : len + k = 6) :
    qOfNat v / 10 ^ len = qOfNat (v * 10 ^ k) / 1000000 := by
  unfold qOfNat
  have h6 : (1000000 : ℚ) = 10 ^ 6 := by norm_num
  push_cast
  rw [h6, ← h, pow_add]
  rw [div_eq_div_iff (by positivity) (by positivity)]
  ring

theorem parseFloat_renderNat_lead (m : ℕ) (t : Str) :
    parseFloat (renderNat m ++ t) = parseUFloat (renderNat m ++ t) := by
  obtain ⟨c, r, hcr⟩ : ∃ c r, renderNat m = c :: r := by
    cases h : renderNat m with
    | nil => exact absurd h (renderNat_ne_nil m)
    | cons c r => exact ⟨c, r, rfl⟩
  have hc : c ≠ '-' := digit_ne_dash
    (renderNat_all_digit m c (by rw [hcr]; exact List.mem_cons_self _ _))
  rw [hcr, List.cons_append, parseFloat_cons_ne c _ hc]

/-- Parsing the stripped six-decimal rendering of `q` recovers exactly the
rounded value `rhe (q·10⁶) / 10⁶`. -/
theorem parse_strip_fmt6 (q : ℚ) :
    parseFloat (stripFloatStr (fmt6 q)) =
      some ((rhe (q * 1000000) : ℚ) / 1000000) := by
  have hMq : (1000000 : ℚ) ≠ 0 := by norm_num
  by_cases hf : (rhe (q * 1000000)).natAbs % 1000000 = 0
  · -- the fractional digits are all zero
    have hfp : padLeft 6 (renderNat ((rhe (q * 1000000)).natAbs % 1000000)) =
        List.replicate 6 '0' := by rw [hf]; decide
    have hdiv : (rhe (q * 1000000)).natAbs =
        (rhe (q * 1000000)).natAbs / 1000000 * 1000000 := by omega
    obtain ⟨u0, d, hu0, hd⟩ := renderNat_snoc ((rhe (q * 1000000)).natAbs / 1000000)
    by_cases hq : q < 0
    · have hfmt : fmt6 q =
          ('-' :: renderNat ((rhe (q * 1000000)).natAbs / 1000000)) ++
            '.' :: List.replicate 6 '0' := by
        unfold fmt6
        rw [if_pos hq, hfp]
        simp
      rw [hfmt, stripFloatStr_zero_frac _ ⟨'-' :: u0, d, by rw [hu0]; rfl, hd⟩,
        parseFloat_neg,
        parseUFloat_digits _ (renderNat_ne_nil _) (renderNat_all_digit _),
        digitsVal_renderNat, Option.map_some']
      congr 1
      have hN : rhe (q * 1000000) ≤ 0 :=
        rhe_nonpos _ (by nlinarith [le_of_lt hq])
      have hNa : ((rhe (q * 1000000)).natAbs : ℤ) = -rhe (q * 1000000) :=
        Int.ofNat_natAbs_of_nonpos hN
      have hcast : ((rhe (q * 1000000)).natAbs : ℚ) = -((rhe (q * 1000000) : ℤ) : ℚ) := by
        rw [Int.cast_natAbs]
        have h3 := congrArg (fun z : ℤ => (z : ℚ)) hNa
        push_cast at h3
        rw [Int.cast_abs]
        exact h3
      unfold qOfNat
      rw [eq_div_iff hMq, neg_mul, ← neg_neg ((rhe (q * 1000000) : ℤ) : ℚ), ← hcast]
      conv_rhs => rw [hdiv]
      push_cast
      ring
    · have hfmt : fmt6 q =
          renderNat ((rhe (q * 1000000)).natAbs / 1000000) ++
            '.' :: List.replicate 6 '0' := by
        unfold fmt6
        rw [if_neg hq, hfp]
        simp
      rw [hfmt, stripFloatStr_zero_frac _ ⟨u0, d, hu0, hd⟩,
        show renderNat ((rhe (q * 1000000)).natAbs / 1000000) =
          renderNat ((rhe (q * 1000000)).natAbs / 1000000) ++ [] by simp,
        parseFloat_renderNat_lead, List.append_nil,
        parseUFloat_digits _ (renderNat_ne_nil _) (renderNat_all_digit _),
        digitsVal_renderNat]
      congr 1
      have hN : 0 ≤ rhe (q * 1000000) :=
        rhe_nonneg _ (by nlinarith [not_lt.mp hq])
      have hNa : ((rhe (q * 1000000)).natAbs : ℤ) = rhe (q * 1000000) :=
        Int.natAbs_of_nonneg hN
      have hcast : ((rhe (q * 1000000)).natAbs : ℚ) = ((rhe (q * 1000000) : ℤ) : ℚ) := by
        rw [Int.cast_natAbs]
        have h3 := congrArg (fun z : ℤ => (z : ℚ)) hNa
        push_cast at h3
        rw [Int.cast_abs]
        exact h3
      unfold qOfNat
      rw [eq_div_iff hMq, ← hcast]
      conv_rhs => rw [hdiv]
      push_cast
      ring
  · -- the fractional digits carry a nonzero value
    have hflt : (rhe (q * 1000000)).natAbs % 1000000 < 10 ^ 6 := by
      norm_num
      omega
    have hdig6 : ∀ c ∈ padLeft 6 (renderNat ((rhe (q * 1000000)).natAbs % 1000000)),
        c.isDigit = true := padLeft_all_digit 6 _ (renderNat_all_digit _)
    have hval6 : digitsVal (padLeft 6 (renderNat ((rhe (q * 1000000)).natAbs % 1000000))) =
        (rhe (q * 1000000)).natAbs % 1000000 := by
      rw [digitsVal_padLeft, digitsVal_renderNat]
    have hlen6 : (padLeft 6 (renderNat ((rhe (q * 1000000)).natAbs % 1000000))).length = 6 :=
      length_padLeft 6 _ (renderNat_length_le _ 6 hflt (by norm_num))
    obtain ⟨fred, k, hdecomp, hfne, hfdig, hfval, hflast, hstrip⟩ :=
      stripFloatStr_pos_frac
        ((if q < 0 then ['-'] else []) ++ renderNat ((rhe (q * 1000000)).natAbs / 1000000))
        (padLeft 6 (renderNat ((rhe (q * 1000000)).natAbs % 1000000)))
        hdig6 (by rw [hval6]; exact hf)
    have hlk : fred.length + k = 6 := by
      have := congrArg List.length hdecomp
      rw [List.length_append, List.length_replicate] at this
      omega
    have hfmt : fmt6 q =
        ((if q < 0 then ['-'] else []) ++ renderNat ((rhe (q * 1000000)).natAbs / 1000000)) ++
          '.' :: padLeft 6 (renderNat ((rhe (q * 1000000)).natAbs % 1000000)) := by
      unfold fmt6
      simp
    have hfredval : qOfNat (digitsVal fred) / 10 ^ fred.length =
        qOfNat ((rhe (q * 1000000)).natAbs % 1000000) / 1000000 := by
      rw [frac_scale _ k _ hlk]
      congr 2
      rw [← hfval, hval6]
    rw [hfmt, hstrip]
    by_cases hq : q < 0
    · rw [if_pos hq]
      simp only [List.cons_append, List.nil_append, List.append_assoc]
      rw [parseFloat_neg,
        parseUFloat_with_dot _ _ (renderNat_all_digit _) hfdig (renderNat_ne_nil _),
        digitsVal_renderNat, Option.map_some']
      congr 1
      rw [hfredval, cast_div_add_mod]
      have hN : rhe (q * 1000000) ≤ 0 :=
        rhe_nonpos _ (by nlinarith [le_of_lt hq])
      have hNa : ((rhe (q * 1000000)).natAbs : ℤ) = -rhe (q * 1000000) :=
        Int.ofNat_natAbs_of_nonpos hN
      have hcast : ((rhe (q * 1000000)).natAbs : ℚ) = -((rhe (q * 1000000) : ℤ) : ℚ) := by
        rw [Int.cast_natAbs]
        have h3 := congrArg (fun z : ℤ => (z : ℚ)) hNa
        push_cast at h3
        rw [Int.cast_abs]
        exact h3
      rw [hcast]
      ring
    · rw [if_neg hq]
      simp only [List.nil_append]
      rw [parseFloat_renderNat_lead,
        parseUFloat_with_dot _ _ (renderNat_all_digit _) hfdig (renderNat_ne_nil _),
        digitsVal_renderNat]
      congr 1
      rw [hfredval, cast_div_add_mod]
      have hN : 0 ≤ rhe (q * 1000000) :=
        rhe_nonneg _ (by nlinarith [not_lt.mp hq])
      have hNa : ((rhe (q * 1000000)).natAbs : ℤ) = rhe (q * 1000000) :=
        Int.natAbs_of_nonneg hN
      have hcast : ((rhe (q * 1000000)).natAbs : ℚ) = ((rhe (q * 1000000) : ℤ) : ℚ) := by
        rw [Int.cast_natAbs]
        have h3 := congrArg (fun z : ℤ => (z : ℚ)) hNa
        push_cast at h3
        rw [Int.cast_abs]
        exact h3
      rw [hcast]

theorem rhe_fixed_div (N : ℤ) : rhe ((N : ℚ) / 1000000 * 1000000) = N := by
  have h : (N : ℚ) / 1000000 * 1000000 = (N : ℚ) := by field_simp
  rw [h, rhe_intCast]

theorem normFloatVal_intCast (z : ℤ) : normFloatVal ((z : ℚ)) = renderInt z := by
  unfold normFloatVal
  rw [if_pos (Rat.den_intCast z), Rat.num_intCast]

theorem parseFloat_renderInt (i : ℤ) : parseFloat (renderInt i) = some ((i : ℚ)) := by
  unfold renderInt
  by_cases hi : i < 0
  · rw [if_pos hi, parseFloat_neg,
      parseUFloat_digits _ (renderNat_ne_nil _) (renderNat_all_digit _),
      Option.map_some']
    congr 1
    have hNa : (i.natAbs : ℤ) = -i := Int.ofNat_natAbs_of_nonpos (le_of_lt hi)
    unfold qOfNat
    rw [digitsVal_renderNat, Int.cast_natAbs]
    have h3 := congrArg (fun z : ℤ => (z : ℚ)) hNa
    push_cast at h3
    rw [Int.cast_abs]
    linarith [h3]
  · rw [if_neg hi,
      show renderNat i.natAbs = renderNat i.natAbs ++ [] by simp,
      parseFloat_renderNat_lead, List.append_nil,
      parseUFloat_digits _ (renderNat_ne_nil _) (renderNat_all_digit _)]
    congr 1
    have hNa : (i.natAbs : ℤ) = i := Int.natAbs_of_nonneg (not_lt.mp hi)
    unfold qOfNat
    rw [digitsVal_renderNat, Int.cast_natAbs]
    have h3 := congrArg (fun z : ℤ => (z : ℚ)) hNa
    push_cast at h3
    rw [Int.cast_abs]
    linarith [h3]

theorem normFloatVal_neg0_of (q : ℚ) (hden : q.den ≠ 1) (hq : q < 0)
    (hN : rhe (q * 1000000) = 0) : normFloatVal q = lit ("-0") := by
  unfold normFloatVal
  rw [if_neg hden]
  have hfmt : fmt6 q = ('-' :: renderNat 0) ++ '.' :: List.replicate 6 '0' := by
    unfold fmt6
    rw [if_pos hq, hN]
    norm_num
    decide
  rw [hfmt, stripFloatStr_zero_frac _ ⟨['-'], '0', by decide, by decide⟩]
  decide

theorem normFloatVal_renorm (q : ℚ) (hden : q.den ≠ 1)
    (hnz : ¬(q < 0 ∧ rhe (q * 1000000) = 0)) :
    normFloatVal ((rhe (q * 1000000) : ℚ) / 1000000) = normFloatVal q := by
  by_cases hdvd : (1000000 : ℤ) ∣ rhe (q * 1000000)
  · obtain ⟨z, hz⟩ := hdvd
    have hr : (rhe (q * 1000000) : ℚ) / 1000000 = (z : ℚ) := by
      rw [hz]
      push_cast
      field_simp
    rw [hr, normFloatVal_intCast]
    have hamod : (rhe (q * 1000000)).natAbs = 1000000 * z.natAbs := by
      rw [hz, Int.natAbs_mul]
      norm_num
    have hf : (rhe (q * 1000000)).natAbs % 1000000 = 0 := by omega
    have hdivz : (rhe (q * 1000000)).natAbs / 1000000 = z.natAbs := by omega
    have hfp : padLeft 6 (renderNat ((rhe (q * 1000000)).natAbs % 1000000)) =
        List.replicate 6 '0' := by rw [hf]; decide
    unfold normFloatVal
    rw [if_neg hden]
    obtain ⟨u0, d, hu0, hd⟩ := renderNat_snoc ((rhe (q * 1000000)).natAbs / 1000000)
    by_cases hq : q < 0
    · have hNneg : rhe (q * 1000000) ≤ 0 := rhe_nonpos _ (by nlinarith [le_of_lt hq])
      have hNne : rhe (q * 1000000) ≠ 0 := fun h0 => hnz ⟨hq, h0⟩
      have hzneg : z < 0 := by
        rcases lt_trichotomy z 0 with h | h | h
        · exact h
        · exact absurd (by rw [hz, h, mul_zero]) hNne
        · exfalso
          have : 0 < rhe (q * 1000000) := by rw [hz]; positivity
          omega
      have hfmt : fmt6 q =
          ('-' :: renderNat ((rhe (q * 1000000)).natAbs / 1000000)) ++
            '.' :: List.replicate 6 '0' := by
        unfold fmt6
        rw [if_pos hq, hfp]
        simp
      rw [hfmt, stripFloatStr_zero_frac _ ⟨'-' :: u0, d, by rw [hu0]; rfl, hd⟩, hdivz]
      unfold renderInt
      rw [if_pos hzneg]
    · have hNpos : 0 ≤ rhe (q * 1000000) := rhe_nonneg _ (by nlinarith [not_lt.mp hq])
      have hznn : ¬ z < 0 := by
        intro hzlt
        have : rhe (q * 1000000) < 0 := by
          rw [hz]
          exact mul_neg_of_pos_of_neg (by norm_num) hzlt
        omega
      have hfmt : fmt6 q =
          renderNat ((rhe (q * 1000000)).natAbs / 1000000) ++
            '.' :: List.replicate 6 '0' := by
        unfold fmt6
        rw [if_neg hq, hfp]
        simp
      rw [hfmt, stripFloatStr_zero_frac _ ⟨u0, d, hu0, hd⟩, hdivz]
      unfold renderInt
      rw [if_neg hznn]
  · have hrden : ((rhe (q * 1000000) : ℚ) / 1000000).den ≠ 1 := by
      intro h1
      exact hdvd ((den_div_M_eq_one_iff _).mp h1)
    have hNne : rhe (q * 1000000) ≠ 0 := by
      intro h0
      exact hdvd (h0 ▸ dvd_zero 1000000)
    have hsign : ((rhe (q * 1000000) : ℚ) / 1000000 < 0) ↔ (q < 0) := by
      constructor
      · intro hr
        by_contra hq
        have hNpos : 0 ≤ rhe (q * 1000000) := rhe_nonneg _ (by nlinarith [not_lt.mp hq])
        have : (0 : ℚ) ≤ (rhe (q * 1000000) : ℚ) / 1000000 := by positivity
        linarith
      · intro hq
        have hNneg : rhe (q * 1000000) ≤ 0 := rhe_nonpos _ (by nlinarith [le_of_lt hq])
        have hlt : rhe (q * 1000000) < 0 := lt_of_le_of_ne hNneg hNne
        apply div_neg_of_neg_of_pos _ (by norm_num)
        exact_mod_cast hlt
    have hfmt : fmt6 ((rhe (q * 1000000) : ℚ) / 1000000) = fmt6 q := by
      unfold fmt6
      rw [rhe_fixed_div]
      by_cases hq : q < 0
      · rw [if_pos (hsign.mpr hq), if_pos hq]
      · rw [if_neg (fun hr => hq (hsign.mp hr)), if_neg hq]
    unfold normFloatVal
    rw [if_neg hden, if_neg hrden, hfmt]

/-- Re-parsing the float normalization of `q` and normalizing again is
stable, except on the single output `"-0"`. -/
theorem normFloatVal_reparse (q : ℚ) (h : normFloatVal q ≠ lit ("-0")) :
    ∃ r, parseFloat (normFloatVal q) = some r ∧ normFloatVal r = normFloatVal q := by
  by_cases hden : q.den = 1
  · refine ⟨(q.num : ℚ), ?_, ?_⟩
    · unfold normFloatVal
      rw [if_pos hden, parseFloat_renderInt]
    · rw [normFloatVal_intCast]
      unfold normFloatVal
      rw [if_pos hden]
  · refine ⟨(rhe (q * 1000000) : ℚ) / 1000000, ?_, ?_⟩
    · unfold normFloatVal
      rw [if_neg hden, parse_strip_fmt6]
    · exact normFloatVal_renorm q hden
        (fun hc => h (normFloatVal_neg0_of q hden hc.1 hc.2))


/-! ## Idempotence of the comparison normalizer, branch by branch -/

theorem norm_first_null (fr : ℚ → Str) (v : PyVal) (t : Str)
    (h0 : v = PyVal.none ∨ v = PyVal.bool false) :
    normalizeValueForComparison fr v t = sNULL := by
  unfold normalizeValueForComparison
  rw [if_pos h0]

theorem norm_str_int (fr : ℚ → Str) (s : Str) :
    normalizeValueForComparison fr (PyVal.str s) tInt =
      (match parseInt s with
       | some n => renderInt n
       | Option.none => sNULL) := by
  unfold normalizeValueForComparison
  rw [if_neg (by simp), if_neg (by decide), if_pos rfl]
  rfl

theorem norm_shape_int (fr : ℚ → Str) (v : PyVal)
    (h0 : ¬(v = PyVal.none ∨ v = PyVal.bool false)) :
    normalizeValueForComparison fr v tInt =
      (match pyInt v with
       | some n => renderInt n
       | Option.none => sNULL) := by
  unfold normalizeValueForComparison
  rw [if_neg h0, if_neg (by decide), if_pos rfl]

theorem norm_int_idem (fr : ℚ → Str) (v : PyVal) :
    normalizeValueForComparison fr
        (PyVal.str (normalizeValueForComparison fr v tInt)) tInt =
      normalizeValueForComparison fr v tInt := by
  by_cases h0 : v = PyVal.none ∨ v = PyVal.bool false
  · rw [norm_first_null fr v tInt h0, norm_str_int]
    decide
  · rw [norm_shape_int fr v h0]
    cases hp : pyInt v with
    | none => rw [norm_str_int]; decide
    | some n => rw [norm_str_int, parseInt_renderInt]

theorem norm_str_float (fr : ℚ → Str) (s : Str) :
    normalizeValueForComparison fr (PyVal.str s) tFloat =
      (match parseFloat s with
       | some q => normFloatVal q
       | Option.none => sNULL) := by
  unfold normalizeValueForComparison
  rw [if_neg (by simp), if_neg (by decide), if_neg (by decide), if_pos rfl]
  rfl

theorem norm_shape_float (fr : ℚ → Str) (v : PyVal)
    (h0 : ¬(v = PyVal.none ∨ v = PyVal.bool false)) :
    normalizeValueForComparison fr v tFloat =
      (match pyFloat v with
       | some q => normFloatVal q
       | Option.none => sNULL) := by
  unfold normalizeValueForComparison
  rw [if_neg h0, if_neg (by decide), if_neg (by decide), if_pos rfl]

theorem norm_float_idem (fr : ℚ → Str) (v : PyVal)
    (h : normalizeValueForComparison fr v tFloat ≠ lit ("-0")) :
    normalizeValueForComparison fr
        (PyVal.str (normalizeValueForComparison fr v tFloat)) tFloat =
      normalizeValueForComparison fr v tFloat := by
  by_cases h0 : v = PyVal.none ∨ v = PyVal.bool false
  · rw [norm_first_null fr v tFloat h0, norm_str_float]
    decide
  · rw [norm_shape_float fr v h0] at h ⊢
    cases hp : pyFloat v with
    | none => rw [norm_str_float]; decide
    | some q =>
      rw [hp] at h
      obtain ⟨r, hr1, hr2⟩ := normFloatVal_reparse q h
      rw [norm_str_float, hr1]
      exact hr2

theorem norm_str_strlike (fr : ℚ → Str) (s : Str) :
    normalizeValueForComparison fr (PyVal.str s) tStr =
      (if s = [] then [] else pyStrip s) := by
  unfold normalizeValueForComparison
  rw [if_neg (by simp), if_neg (by decide), if_neg (by decide), if_neg (by decide),
    if_pos (Or.inl rfl)]
  by_cases hs : s = []
  · rw [if_pos (by rw [hs]), if_pos hs]
  · rw [if_neg (by simpa using hs), if_pos (by simp [truthy, hs]), if_neg hs]
    rfl

theorem norm_shape_strlike (fr : ℚ → Str) (v : PyVal)
    (h0 : ¬(v = PyVal.none ∨ v = PyVal.bool false)) :
    normalizeValueForComparison fr v tStr =
      (if v = PyVal.str [] then []
       else if truthy v then pyStrip (pyStr fr v) else sNULL) := by
  unfold normalizeValueForComparison
  rw [if_neg h0, if_neg (by decide), if_neg (by decide), if_neg (by decide),
    if_pos (Or.inl rfl)]

theorem norm_strlike_idem (fr : ℚ → Str) (v : PyVal) :
    normalizeValueForComparison fr
        (PyVal.str (normalizeValueForComparison fr v tStr)) tStr =
      normalizeValueForComparison fr v tStr := by
  by_cases h0 : v = PyVal.none ∨ v = PyVal.bool false
  · rw [norm_first_null fr v tStr h0, norm_str_strlike]
    decide
  · rw [norm_shape_strlike fr v h0, norm_str_strlike]
    by_cases h1 : v = PyVal.str []
    · rw [if_pos h1]
      simp
    · rw [if_neg h1]
      by_cases h2 : truthy v
      · rw [if_pos h2]
        by_cases h3 : pyStrip (pyStr fr v) = []
        · rw [if_pos h3, h3]
        · rw [if_neg h3, pyStrip_idem]
      · rw [if_neg h2]
        decide


theorem norm_str_direct (fr : ℚ → Str) (s : Str) :
    normalizeValueForComparison fr (PyVal.str s) tDirect =
      (if s = [] then [] else pyStrip s) := by
  unfold normalizeValueForComparison
  rw [if_neg (by simp), if_neg (by decide), if_neg (by decide), if_neg (by decide),
    if_neg (by decide), if_neg (by decide)]
  by_cases hs : s = []
  · rw [if_pos (by rw [hs]), if_pos hs]
  · rw [if_neg (by simpa using hs), if_pos (by simp [truthy, hs]), if_neg hs]
    rfl

theorem norm_shape_direct (fr : ℚ → Str) (v : PyVal)
    (h0 : ¬(v = PyVal.none ∨ v = PyVal.bool false)) :
    normalizeValueForComparison fr v tDirect =
      (if v = PyVal.str [] then []
       else if truthy v then pyStrip (pyStr fr v) else sNULL) := by
  unfold normalizeValueForComparison
  rw [if_neg h0, if_neg (by decide), if_neg (by decide), if_neg (by decide),
    if_neg (by decide), if_neg (by decide)]

theorem norm_direct_idem (fr : ℚ → Str) (v : PyVal) :
    normalizeValueForComparison fr
        (PyVal.str (normalizeValueForComparison fr v tDirect)) tDirect =
      normalizeValueForComparison fr v tDirect := by
  by_cases h0 : v = PyVal.none ∨ v = PyVal.bool false
  · rw [norm_first_null fr v tDirect h0, norm_str_direct]
    decide
  · rw [norm_shape_direct fr v h0, norm_str_direct]
    by_cases h1 : v = PyVal.str []
    · rw [if_pos h1]
      simp
    · rw [if_neg h1]
      by_cases h2 : truthy v
      · rw [if_pos h2]
        by_cases h3 : pyStrip (pyStr fr v) = []
        · rw [if_pos h3, h3]
        · rw [if_neg h3, pyStrip_idem]
      · rw [if_neg h2]
        decide

theorem norm_str_dateish (fr : ℚ → Str) (s : Str) (t : Str)
    (ht : t = tDate ∨ t = tDatetime) :
    normalizeValueForComparison fr (PyVal.str s) t =
      (if s = [] then sNULL else s) := by
  unfold normalizeValueForComparison
  rw [if_neg (by simp),
    if_neg (by rcases ht with rfl | rfl <;> decide),
    if_neg (by rcases ht with rfl | rfl <;> decide),
    if_neg (by rcases ht with rfl | rfl <;> decide),
    if_neg (by rcases ht with rfl | rfl <;> decide),
    if_pos ht]
  show (if truthy (PyVal.str s) then pyStr fr (PyVal.str s) else sNULL) = _
  by_cases hs : s = []
  · rw [if_neg (by simp [truthy, hs]), if_pos hs]
  · rw [if_pos (by simp [truthy, hs]), if_neg hs]
    rfl

theorem norm_shape_dateish (fr : ℚ → Str) (v : PyVal) (t : Str)
    (ht : t = tDate ∨ t = tDatetime)
    (h0 : ¬(v = PyVal.none ∨ v = PyVal.bool false)) :
    normalizeValueForComparison fr v t =
      (match v with
       | .date d =>
         if t = tDate then renderDate d
         else renderDateTimeMs ⟨d.year, d.month, d.day, 0, 0, 0, 0⟩
       | .datetime tt =>
         if t = tDate then renderDate ⟨tt.year, tt.month, tt.day⟩
         else renderDateTimeMs tt
       | _ => if truthy v then pyStr fr v else sNULL) := by
  unfold normalizeValueForComparison
  rw [if_neg h0,
    if_neg (by rcases ht with rfl | rfl <;> decide),
    if_neg (by rcases ht with rfl | rfl <;> decide),
    if_neg (by rcases ht with rfl | rfl <;> decide),
    if_neg (by rcases ht with rfl | rfl <;> decide),
    if_pos ht]
  cases v <;> rfl

theorem norm_dateish_ne_nil (fr : ℚ → Str) (hfr : ∀ q, fr q ≠ []) (v : PyVal)
    (t : Str) (ht : t = tDate ∨ t = tDatetime) :
    normalizeValueForComparison fr v t ≠ [] := by
  by_cases h0 : v = PyVal.none ∨ v = PyVal.bool false
  · rw [norm_first_null fr v t h0]
    decide
  · cases v with
    | none => exact absurd (Or.inl rfl) h0
    | bool b =>
      cases b with
      | false => exact absurd (Or.inr rfl) h0
      | true =>
        rw [norm_shape_dateish fr _ t ht h0]
        show (if truthy (PyVal.bool true) then pyStr fr (PyVal.bool true) else sNULL) ≠ []
        rw [if_pos (by decide)]
        show lit ("True") ≠ []
        decide
    | int n =>
      rw [norm_shape_dateish fr _ t ht h0]
      show (if truthy (PyVal.int n) then pyStr fr (PyVal.int n) else sNULL) ≠ []
      by_cases hn : truthy (PyVal.int n)
      · rw [if_pos hn]
        exact renderInt_ne_nil n
      · rw [if_neg hn]
        decide
    | float q =>
      rw [norm_shape_dateish fr _ t ht h0]
      show (if truthy (PyVal.float q) then pyStr fr (PyVal.float q) else sNULL) ≠ []
      by_cases hq : truthy (PyVal.float q)
      · rw [if_pos hq]
        exact hfr q
      · rw [if_neg hq]
        decide
    | str s =>
      rw [norm_str_dateish fr s t ht]
      by_cases hs : s = []
      · rw [if_pos hs]
        decide
      · rw [if_neg hs]
        exact hs
    | date d =>
      rw [norm_shape_dateish fr _ t ht h0]
      show (if t = tDate then renderDate d
        else renderDateTimeMs ⟨d.year, d.month, d.day, 0, 0, 0, 0⟩) ≠ []
      by_cases htd : t = tDate
      · rw [if_pos htd]
        exact renderDate_ne_nil d
      · rw [if_neg htd]
        exact renderDateTimeMs_ne_nil _
    | datetime tt =>
      rw [norm_shape_dateish fr _ t ht h0]
      show (if t = tDate then renderDate ⟨tt.year, tt.month, tt.day⟩
        else renderDateTimeMs tt) ≠ []
      by_cases htd : t = tDate
      · rw [if_pos htd]
        exact renderDate_ne_nil _
      · rw [if_neg htd]
        exact renderDateTimeMs_ne_nil _

theorem norm_dateish_idem (fr : ℚ → Str) (hfr : ∀ q, fr q ≠ []) (v : PyVal)
    (t : Str) (ht : t = tDate ∨ t = tDatetime) :
    normalizeValueForComparison fr
        (PyVal.str (normalizeValueForComparison fr v t)) t =
      normalizeValueForComparison fr v t := by
  rw [norm_str_dateish fr _ t ht, if_neg (norm_dateish_ne_nil fr hfr v t ht)]


/-! ## Concrete evaluations (Rat arithmetic made kernel-reducible) -/

/-- A stand-in for CPython's float repr in closed instances; like the real
repr it is never the empty string. -/
def someFloatRepr (q : ℚ) : Str := renderInt (rhe q)

theorem someFloatRepr_ne_nil (q : ℚ) : someFloatRepr q ≠ [] := renderInt_ne_nil _

theorem norm_bool_shape (fr : ℚ → Str) (v : PyVal)
    (h0 : ¬(v = PyVal.none ∨ v = PyVal.bool false)) :
    normalizeValueForComparison fr v tBool =
      (if truthy v then lit ("1") else lit ("0")) := by
  unfold normalizeValueForComparison
  rw [if_neg h0, if_pos rfl]

section
attribute [local semireducible] Rat.mul Rat.add Rat.sub Rat.inv

theorem normFloatVal_concrete_neg0 : normFloatVal (-1 / 2 ^ 24) = lit ("-0") := by
  decide

theorem parseFloat_concrete_neg0 : parseFloat (lit ("-0")) = some 0 := by decide

theorem normFloatVal_concrete_zero : normFloatVal 0 = lit ("0") := by decide

theorem normFloatVal_concrete_nineteen_half : normFloatVal (39 / 2) = lit ("19.5") := by
  decide

theorem den_concrete_neg0 : ((-1 / 2 ^ 24 : ℚ)).den ≠ 1 := by decide

theorem den_concrete_nineteen_half : ((39 / 2 : ℚ)).den ≠ 1 := by decide

end

/-- C3 (amended), main statement: re-normalizing a normalized value is the
identity for the `direct`, `int`, `str`, `date` and `datetime` transforms;
for `float` it is the identity except on values whose normalization is the
string `"-0"` (negative floats rounding to zero at six decimals), and for
`bool` it fails (`0` normalizes to `"0"`, which re-normalizes to `"1"`;
the float exception is witnessed by `-2⁻²⁴`). -/
theorem C3_normalization_idempotence_amended (fr : ℚ → Str) (hfr : ∀ q, fr q ≠ []) :
    (∀ v t, t = tDirect ∨ t = tInt ∨ t = tStr ∨ t = tDate ∨ t = tDatetime →
      normalizeValueForComparison fr
          (PyVal.str (normalizeValueForComparison fr v t)) t =
        normalizeValueForComparison fr v t) ∧
    (∀ v, normalizeValueForComparison fr v tFloat ≠ lit ("-0") →
      normalizeValueForComparison fr
          (PyVal.str (normalizeValueForComparison fr v tFloat)) tFloat =
        normalizeValueForComparison fr v tFloat) ∧
    normalizeValueForComparison fr
        (PyVal.str (normalizeValueForComparison fr (PyVal.int 0) tBool)) tBool ≠
      normalizeValueForComparison fr (PyVal.int 0) tBool ∧
    normalizeValueForComparison fr
        (PyVal.str (normalizeValueForComparison fr (PyVal.float (-1 / 2 ^ 24)) tFloat))
        tFloat ≠
      normalizeValueForComparison fr (PyVal.float (-1 / 2 ^ 24)) tFloat := by
  have hnf : normalizeValueForComparison fr (PyVal.float (-1 / 2 ^ 24)) tFloat =
      lit ("-0") := by
    rw [norm_shape_float fr _ (by simp)]
    show normFloatVal (-1 / 2 ^ 24) = _
    exact normFloatVal_concrete_neg0
  refine ⟨?_, ?_, ?_, ?_⟩
  · intro v t ht
    rcases ht with rfl | rfl | rfl | rfl | rfl
    · exact norm_direct_idem fr v
    · exact norm_int_idem fr v
    · exact norm_strlike_idem fr v
    · exact norm_dateish_idem fr hfr v tDate (Or.inl rfl)
    · exact norm_dateish_idem fr hfr v tDatetime (Or.inr rfl)
  · exact norm_float_idem fr
  · have h1 : normalizeValueForComparison fr (PyVal.int 0) tBool = lit ("0") := by
      rw [norm_bool_shape fr _ (by simp), if_neg (by decide)]
    rw [h1, norm_bool_shape fr _ (by simp), if_pos (by decide)]
    decide
  · rw [hnf, norm_str_float, parseFloat_concrete_neg0]
    show normFloatVal 0 ≠ lit ("-0")
    rw [normFloatVal_concrete_zero]
    decide

/-- C3 witness: the amended idempotence applied at the `str` transform on
the concrete value `" a "`. -/
theorem C3_normalization_idempotence_amended_witness :
    normalizeValueForComparison someFloatRepr
        (PyVal.str (normalizeValueForComparison someFloatRepr
          (PyVal.str (lit (" a "))) tStr)) tStr =
      normalizeValueForComparison someFloatRepr (PyVal.str (lit (" a "))) tStr :=
  (C3_normalization_idempotence_amended someFloatRepr someFloatRepr_ne_nil).1
    (PyVal.str (lit (" a "))) tStr (Or.inr (Or.inr (Or.inl rfl)))

/-- C3 counterexample: with the `bool` transform, the Python value `0`
normalizes to `"0"`, but re-normalizing `"0"` (a non-empty, hence truthy,
string) yields `"1"`: normalization is not idempotent for every transform
kind. -/
theorem C3_normalization_idempotence_counterexample :
    normalizeValueForComparison someFloatRepr
        (PyVal.str (normalizeValueForComparison someFloatRepr (PyVal.int 0) tBool))
        tBool ≠
      normalizeValueForComparison someFloatRepr (PyVal.int 0) tBool := by
  have h1 : normalizeValueForComparison someFloatRepr (PyVal.int 0) tBool =
      lit ("0") := by
    rw [norm_bool_shape someFloatRepr _ (by simp), if_neg (by decide)]
  rw [h1, norm_bool_shape someFloatRepr _ (by simp), if_pos (by decide)]
  decide

/-- C4 (amended): the comparison normalizer maps a Python `None` — and,
because Odoo conflates `False` with NULL, also the boolean `False` — to the
literal token `"NULL"` under every transform; under the `bool` transform a
surviving truthy value yields `"1"` and a surviving falsy value (such as the
integer `0`) yields `"0"`, but the boolean value `False` itself yields
`"NULL"`, not `"0"`. -/
theorem C4_null_and_bool_tokens_amended (fr : ℚ → Str) :
    (∀ v t, (v = PyVal.none ∨ v = PyVal.bool false) →
      normalizeValueForComparison fr v t = sNULL) ∧
    (∀ v, ¬(v = PyVal.none ∨ v = PyVal.bool false) →
      normalizeValueForComparison fr v tBool =
        (if truthy v then lit ("1") else lit ("0"))) ∧
    normalizeValueForComparison fr (PyVal.bool true) tBool = lit ("1") ∧
    normalizeValueForComparison fr (PyVal.int 0) tBool = lit ("0") ∧
    normalizeValueForComparison fr (PyVal.bool false) tBool = sNULL := by
  refine ⟨fun v t h0 => norm_first_null fr v t h0, norm_bool_shape fr, ?_, ?_, ?_⟩
  · rw [norm_bool_shape fr _ (by simp), if_pos (by decide)]
  · rw [norm_bool_shape fr _ (by simp), if_neg (by decide)]
  · exact norm_first_null fr _ _ (Or.inr rfl)

/-- C4 witness: the amended statement applied at `None` under `int` and at
the truthy boolean under `bool`. -/
theorem C4_null_and_bool_tokens_amended_witness :
    normalizeValueForComparison someFloatRepr PyVal.none tInt = sNULL ∧
    normalizeValueForComparison someFloatRepr (PyVal.int 7) tBool = lit ("1") := by
  refine ⟨(C4_null_and_bool_tokens_amended someFloatRepr).1 PyVal.none tInt
    (Or.inl rfl), ?_⟩
  rw [(C4_null_and_bool_tokens_amended someFloatRepr).2.1 (PyVal.int 7) (by simp)]
  decide

/-- C4 counterexample: for `transform = bool` the boolean value `False`
normalizes to `"NULL"`, not to `"0"` as the claim states. -/
theorem C4_null_and_bool_tokens_counterexample :
    normalizeValueForComparison someFloatRepr (PyVal.bool false) tBool = sNULL ∧
    sNULL ≠ lit ("0") :=
  ⟨norm_first_null someFloatRepr _ _ (Or.inr rfl), by decide⟩


/-! ## The spec-side characterization of the float rendering (C7) -/

theorem snoc_last_eq {u v : Str} {c d : Char} (h : u ++ [c] = v ++ [d]) : c = d := by
  have h1 := congrArg List.getLast? h
  rw [List.getLast?_concat, List.getLast?_concat] at h1
  exact Option.some.inj h1

theorem sign_render_snoc (s : Str) (i : ℕ) :
    ∃ u d, s ++ renderNat i = u ++ [d] ∧ d.isDigit = true := by
  obtain ⟨u0, d, h, hd⟩ := renderNat_snoc i
  exact ⟨s ++ u0, d, by rw [h, List.append_assoc], hd⟩

theorem dot_not_mem_sign_render (q : ℚ) (i : ℕ) :
    '.' ∉ ((if q < 0 then ['-'] else []) ++ renderNat i) := by
  intro hm
  rw [List.mem_append] at hm
  rcases hm with hm | hm
  · by_cases hq : q < 0
    · rw [if_pos hq, List.mem_singleton] at hm
      exact absurd hm (by decide)
    · rw [if_neg hq] at hm
      exact absurd hm (List.not_mem_nil '.')
  · exact digit_ne_dot (renderNat_all_digit i '.' hm) rfl

/-- When the value is not integral, the normalized float string is the
six-decimal fixed-point rendering with a (possibly empty) tail of `'0'`s
and `'.'`s stripped from the right: it never ends in a decimal point, and
when a decimal point survives it does not end in a zero either. -/
theorem normFloatVal_strip_spec (q : ℚ) (hden : q.den ≠ 1) :
    (∃ t, fmt6 q = normFloatVal q ++ t ∧ ∀ c ∈ t, c = '0' ∨ c = '.') ∧
    (∀ u d, normFloatVal q = u ++ [d] → d ≠ '.') ∧
    ('.' ∈ normFloatVal q → ∀ u d, normFloatVal q = u ++ [d] → d ≠ '0') := by
  have hnorm : normFloatVal q = stripFloatStr (fmt6 q) := by
    unfold normFloatVal
    rw [if_neg hden]
  by_cases hf : (rhe (q * 1000000)).natAbs % 1000000 = 0
  · have hfp : padLeft 6 (renderNat ((rhe (q * 1000000)).natAbs % 1000000)) =
        List.replicate 6 '0' := by rw [hf]; decide
    have hfmt : fmt6 q =
        ((if q < 0 then ['-'] else []) ++
          renderNat ((rhe (q * 1000000)).natAbs / 1000000)) ++
          '.' :: List.replicate 6 '0' := by
      unfold fmt6
      rw [hfp]
    obtain ⟨u0, d0, hu0, hd0⟩ := sign_render_snoc (if q < 0 then ['-'] else [])
      ((rhe (q * 1000000)).natAbs / 1000000)
    have hstrip : normFloatVal q =
        (if q < 0 then ['-'] else []) ++
          renderNat ((rhe (q * 1000000)).natAbs / 1000000) := by
      rw [hnorm, hfmt]
      exact stripFloatStr_zero_frac _ ⟨u0, d0, hu0, hd0⟩
    refine ⟨⟨'.' :: List.replicate 6 '0', by rw [hfmt, hstrip, List.append_assoc], ?_⟩,
      ?_, ?_⟩
    · intro c hc
      rcases List.mem_cons.mp hc with rfl | hc
      · exact Or.inr rfl
      · exact Or.inl (List.eq_of_mem_replicate hc)
    · intro u d hud
      rw [hstrip, hu0] at hud
      rw [← snoc_last_eq hud]
      exact digit_ne_dot hd0
    · intro hdot
      rw [hstrip] at hdot
      exact absurd hdot (dot_not_mem_sign_render q _)
  · have hdig6 : ∀ c ∈ padLeft 6 (renderNat ((rhe (q * 1000000)).natAbs % 1000000)),
        c.isDigit = true := padLeft_all_digit 6 _ (renderNat_all_digit _)
    have hval6 : digitsVal (padLeft 6 (renderNat ((rhe (q * 1000000)).natAbs % 1000000))) =
        (rhe (q * 1000000)).natAbs % 1000000 := by
      rw [digitsVal_padLeft, digitsVal_renderNat]
    obtain ⟨fred, k, hdecomp, hfne, hfdig, hfval, hflast, hstrip⟩ :=
      stripFloatStr_pos_frac
        ((if q < 0 then ['-'] else []) ++ renderNat ((rhe (q * 1000000)).natAbs / 1000000))
        (padLeft 6 (renderNat ((rhe (q * 1000000)).natAbs % 1000000)))
        hdig6 (by rw [hval6]; exact hf)
    have hfmt : fmt6 q =
        ((if q < 0 then ['-'] else []) ++ renderNat ((rhe (q * 1000000)).natAbs / 1000000)) ++
          '.' :: padLeft 6 (renderNat ((rhe (q * 1000000)).natAbs % 1000000)) := by
      unfold fmt6
      simp
    have hnormv : normFloatVal q =
        ((if q < 0 then ['-'] else []) ++ renderNat ((rhe (q * 1000000)).natAbs / 1000000)) ++
          '.' :: fred := by
      rw [hnorm, hfmt, hstrip]
    obtain ⟨uf, df, hudf⟩ : ∃ u d, fred = u ++ [d] :=
      ⟨_, _, (List.dropLast_append_getLast hfne).symm⟩
    have hdfdig : df.isDigit = true := by
      apply hfdig
      rw [hudf]
      exact List.mem_append_right _ (List.mem_singleton_self df)
    have hsnoc : normFloatVal q =
        (((if q < 0 then ['-'] else []) ++
          renderNat ((rhe (q * 1000000)).natAbs / 1000000)) ++ '.' :: uf) ++ [df] := by
      rw [hnormv, hudf]
      simp
    refine ⟨⟨List.replicate k '0', ?_, ?_⟩, ?_, ?_⟩
    · rw [hfmt, hnormv]
      conv_lhs => rw [hdecomp]
      simp
    · intro c hc
      exact Or.inl (List.eq_of_mem_replicate hc)
    · intro u d hud
      rw [hsnoc] at hud
      rw [← snoc_last_eq hud]
      exact digit_ne_dot hdfdig
    · intro _ u d hud
      rw [hsnoc] at hud
      rw [← snoc_last_eq hud]
      exact hflast uf df hudf

theorem normTarget_shape_float (fr : ℚ → Str) (v : PyVal)
    (h0 : ¬(v = PyVal.none ∨ v = PyVal.bool false)) :
    normalizeTargetValue fr v tFloat =
      (match pyFloat v with
       | some q => normFloatVal q
       | Option.none => sNULL) := by
  unfold normalizeTargetValue
  rw [if_neg h0, if_neg (by decide), if_neg (by decide), if_pos rfl]

/-- C7: float normalization erases representational trailing zeros: an
integral value renders as the integer's decimal string; a non-integral
value renders as its six-decimal fixed-point form with trailing zeros and
any trailing decimal point stripped; concretely the source value `19.50`
and the target value `19.5` (the same double, `39/2`) both normalize — on
the source side and on the target side — to `"19.5"`, so the comparison
`source ≠ target` reports no mismatch for that pair. -/
theorem C7_float_trailing_zeros (fr : ℚ → Str) :
    (∀ q : ℚ, q.den = 1 → normFloatVal q = renderInt q.num) ∧
    (∀ q : ℚ, q.den ≠ 1 →
      (∃ t, fmt6 q = normFloatVal q ++ t ∧ ∀ c ∈ t, c = '0' ∨ c = '.') ∧
      (∀ u d, normFloatVal q = u ++ [d] → d ≠ '.') ∧
      ('.' ∈ normFloatVal q → ∀ u d, normFloatVal q = u ++ [d] → d ≠ '0')) ∧
    normalizeValueForComparison fr (PyVal.float (39 / 2)) tFloat = lit ("19.5") ∧
    normalizeTargetValue fr (PyVal.float (39 / 2)) tFloat = lit ("19.5") ∧
    normalizeValueForComparison fr (PyVal.float (39 / 2)) tFloat =
      normalizeTargetValue fr (PyVal.float (39 / 2)) tFloat := by
  have hsrc : normalizeValueForComparison fr (PyVal.float (39 / 2)) tFloat =
      lit ("19.5") := by
    rw [norm_shape_float fr _ (by simp)]
    show normFloatVal (39 / 2) = _
    exact normFloatVal_concrete_nineteen_half
  have htgt : normalizeTargetValue fr (PyVal.float (39 / 2)) tFloat =
      lit ("19.5") := by
    rw [normTarget_shape_float fr _ (by simp)]
    show normFloatVal (39 / 2) = _
    exact normFloatVal_concrete_nineteen_half
  exact ⟨fun q hq => by unfold normFloatVal; rw [if_pos hq],
    normFloatVal_strip_spec, hsrc, htgt, hsrc.trans htgt.symm⟩

/-- C7 witness: the integral and non-integral characterizations evaluated
at `3` and `39/2`. -/
theorem C7_float_trailing_zeros_witness :
    normFloatVal ((3 : ℤ) : ℚ) = renderInt 3 ∧
    (∀ u d, normFloatVal (39 / 2) = u ++ [d] → d ≠ '.') := by
  constructor
  · have h := (C7_float_trailing_zeros someFloatRepr).1 ((3 : ℤ) : ℚ)
      (Rat.den_intCast 3)
    rw [h, Rat.num_intCast]
  · exact ((C7_float_trailing_zeros someFloatRepr).2.1 (39 / 2)
      den_concrete_nineteen_half).2.1


/-! ## Field mappings and the verification pass -/

/-- One entry of the parsed `field_mappings` JSON list as the import and
verification code reads it: `source_field`, `target_field`, and an
optional `transform` (`mapping.get('transform', 'direct')`). -/
structure FieldMap where
  source_field : Str
  target_field : Str
  transform : Option Str
deriving DecidableEq

/-- The lookup `mapping.get('transform', 'direct')`. -/
def FieldMap.getTransform (m : FieldMap) : Str := m.transform.getD tDirect

/-- A verification mismatch, abstracting the three report strings the
comparison loop builds (missing record / per-field difference / extra
record). -/
inductive Mismatch where
  | missing (key : ℤ)
  | fieldDiff (key : ℤ) (index : ℕ)
  | extra (key : ℤ)
deriving DecidableEq

/-- Python dict lookup on an association list (dict keys are unique). -/
def lookup (key : ℤ) : List (ℤ × List Str) → Option (List Str)
  | [] => Option.none
  | (k, v) :: rest => if k = key then some v else lookup key rest

/-- The per-record field comparison (sql_import_job.py lines 246-255):
position `i` is compared only when it is in range on both sides. -/
def compareFields (nfields : ℕ) (key : ℤ) (sv tv : List Str) : List Mismatch :=
  (List.range nfields).filterMap fun i =>
    match sv.get? i, tv.get? i with
    | some a, some b => if a = b then Option.none else some (Mismatch.fieldDiff key i)
    | _, _ => Option.none

/-- The comparison loop of `_verify_imported_data`
(sql_import_job.py lines 236-260). -/
def compareData (fms : List FieldMap) (src tgt : List (ℤ × List Str)) :
    List Mismatch :=
  (src.flatMap fun kv =>
    match lookup kv.1 tgt with
    | Option.none => [Mismatch.missing kv.1]
    | some tv => compareFields fms.length kv.1 kv.2 tv) ++
  (tgt.filterMap fun kv =>
    if lookup kv.1 src = Option.none then some (Mismatch.extra kv.1)
    else Option.none)

/-- The job verification states. -/
inductive VStatus where
  | pending
  | vrunning
  | passed
  | failed
deriving DecidableEq

/-- The job fields `_verify_imported_data` touches, plus the job's own
lifecycle state, which it never writes. -/
structure VJob where
  state : Str
  verification_status : VStatus
  checksum_mismatches : ℕ
  verification_details : Option Str
deriving DecidableEq

/-- The verifier `_verify_imported_data` (sql_import_job.py lines 209-279).  `parse` is
the outcome of `json.loads(mapping.field_mappings or '[]')` at line 214 —
which sits OUTSIDE the `try` block — and `fetch` is the combined outcome
of `_get_source_mapped_data` / `_get_target_mapped_data` (lines 229-230,
inside the `try`).  The first component of the result is the exception the
call propagates, if any; the success-path detail strings are abstracted to
fixed tokens. -/
def verifyImportedData (j : VJob)
    (parse : Except Str (List FieldMap))
    (fetch : Except Str (List (ℤ × List Str) × List (ℤ × List Str))) :
    Option Str × VJob :=
  let j1 := { j with verification_status := VStatus.vrunning }
  match parse with
  | .error e => (some e, j1)
  | .ok [] =>
    (Option.none,
      { j1 with
          verification_status := VStatus.failed
          verification_details :=
            some (lit ("No field mappings configured for verification")) })
  | .ok fms =>
    match fetch with
    | .error e =>
      (Option.none,
        { j1 with
            verification_status := VStatus.failed
            verification_details := some (lit ("Verification error: ") ++ e) })
    | .ok (src, tgt) =>
      let ms := compareData fms src tgt
      (Option.none,
        { j1 with
            checksum_mismatches := ms.length
            verification_status :=
              if ms = [] then VStatus.passed else VStatus.failed
            verification_details :=
              some (if ms = [] then lit ("verified") else lit ("mismatch report")) })

/-- C8 (amended): once the field mappings have parsed, the verification
pass never propagates an exception, never leaves the status `pending` or
`running`, stores a `Verification error: …` reason when the fetch phase
raises, and never touches the job's own lifecycle state; however the
`json.loads` of `field_mappings` at line 214 sits before the `try`, so an
unparseable `field_mappings` (reachable through the manual
`action_verify_data` trigger) propagates and leaves the status `running`. -/
theorem C8_verification_error_containment_amended :
    (∀ j fms fetch, (verifyImportedData j (Except.ok fms) fetch).1 = Option.none) ∧
    (∀ j parse fetch, (verifyImportedData j parse fetch).2.state = j.state) ∧
    (∀ j fms fetch,
      (verifyImportedData j (Except.ok fms) fetch).2.verification_status = VStatus.passed ∨
      (verifyImportedData j (Except.ok fms) fetch).2.verification_status = VStatus.failed) ∧
    (∀ j fms e, fms ≠ [] →
      (verifyImportedData j (Except.ok fms) (Except.error e)).2.verification_status =
          VStatus.failed ∧
      (verifyImportedData j (Except.ok fms) (Except.error e)).2.verification_details =
        some (lit ("Verification error: ") ++ e)) := by
  refine ⟨?_, ?_, ?_, ?_⟩
  · intro j fms fetch
    cases fms with
    | nil => rfl
    | cons m rest =>
      rcases fetch with e | ⟨src, tgt⟩ <;> rfl
  · intro j parse fetch
    rcases parse with e | fms
    · rfl
    · cases fms with
      | nil => rfl
      | cons m rest => rcases fetch with e | ⟨src, tgt⟩ <;> rfl
  · intro j fms fetch
    cases fms with
    | nil => exact Or.inr rfl
    | cons m rest =>
      rcases fetch with e | ⟨src, tgt⟩
      · exact Or.inr rfl
      · by_cases hms : compareData (m :: rest) src tgt = []
        · left
          show (if compareData (m :: rest) src tgt = [] then VStatus.passed
            else VStatus.failed) = VStatus.passed
          rw [if_pos hms]
        · right
          show (if compareData (m :: rest) src tgt = [] then VStatus.passed
            else VStatus.failed) = VStatus.failed
          rw [if_neg hms]
  · intro j fms e hne
    cases fms with
    | nil => exact absurd rfl hne
    | cons m rest => exact ⟨rfl, rfl⟩

/-- C8 witness: the amended containment applied to a concrete job whose
fetch phase raises. -/
theorem C8_verification_error_containment_amended_witness :
    (verifyImportedData ⟨lit ("done"), VStatus.pending, 0, Option.none⟩
        (Except.ok [⟨lit ("id"), lit ("legacy_id"), Option.none⟩])
        (Except.error (lit ("no key field")))).2.verification_status =
      VStatus.failed :=
  ((C8_verification_error_containment_amended).2.2.2
    ⟨lit ("done"), VStatus.pending, 0, Option.none⟩
    [⟨lit ("id"), lit ("legacy_id"), Option.none⟩]
    (lit ("no key field")) (by simp)).1

/-- C8 counterexample: with an unparseable `field_mappings` text the call
raises (the exception component is set) and the verification status is
left at `running` — the claim's "never leaves the status running, and does
not propagate" is false for this reachable input. -/
theorem C8_verification_error_containment_counterexample :
    (verifyImportedData ⟨lit ("done"), VStatus.pending, 0, Option.none⟩
        (Except.error (lit ("Invalid JSON"))) (Except.ok ([], []))).1 =
      some (lit ("Invalid JSON")) ∧
    (verifyImportedData ⟨lit ("done"), VStatus.pending, 0, Option.none⟩
        (Except.error (lit ("Invalid JSON"))) (Except.ok ([], []))).2.verification_status =
      VStatus.vrunning := by
  exact ⟨rfl, rfl⟩


/-! ## Mapping validation (C6) -/

/-- The enumerated transforms of `validate_mapping`
(sql_import_mapping.py line 261). -/
def validTransforms : List Str :=
  [tDirect, tBool, tInt, tFloat, tStr, tDate, tDatetime]

/-- A parsed element of the `field_mappings` JSON list, as
`validate_mapping` inspects it: a JSON object with string-valued keys, or
any non-object value. -/
inductive MappingEntry where
  | dict (kv : List (Str × Str))
  | notDict
deriving DecidableEq

/-- Python dict lookup for an entry (`'k' in mapping` / `mapping['k']` /
`mapping.get('k', d)`). -/
def alookup (k : Str) : List (Str × Str) → Option Str
  | [] => Option.none
  | p :: rest => if p.1 = k then some p.2 else alookup k rest

def kSourceField : Str := lit ("source_field")

def kTargetField : Str := lit ("target_field")

def kTransform : Str := lit ("transform")

/-- Inputs of `validate_mapping`: `field_mappings` is `Option.none` when
the text is falsy (line 226), `some (.error ())` when `json.loads` raises
(line 231), `some (.ok l)` when it parses; `target_model_fields` is
`Option.none` when `self.env[target_model]` raises `KeyError` (line 240),
else the field names of the target model. -/
structure ValidateInput where
  field_mappings : Option (Except Unit (List MappingEntry))
  target_model_fields : Option (List Str)

/-- The per-entry loop of `validate_mapping`
(sql_import_mapping.py lines 245-265). -/
def validateEntries (model_fields : List Str) :
    List MappingEntry → Except Str Bool
  | [] => Except.ok true
  | .notDict :: _ => Except.error (lit ("Mapping is not a valid object"))
  | .dict kv :: rest =>
    if (alookup kSourceField kv).isNone then
      Except.error (lit ("Missing source_field in mapping"))
    else
      match alookup kTargetField kv with
      | Option.none => Except.error (lit ("Missing target_field in mapping"))
      | some tf =>
        if tf ∉ model_fields then
          Except.error (lit ("Target field does not exist in model"))
        else if ((alookup kTransform kv).getD tDirect) ∉ validTransforms then
          Except.error (lit ("Invalid transform"))
        else validateEntries model_fields rest

/-- The validator `validate_mapping` (sql_import_mapping.py lines 222-267). -/
def validate_mapping (inp : ValidateInput) : Except Str Bool :=
  match inp.field_mappings with
  | Option.none => Except.error (lit ("Field mappings are required"))
  | some (.error _) => Except.error (lit ("Invalid JSON in field mappings"))
  | some (.ok []) => Except.error (lit ("No field mappings configured"))
  | some (.ok mappings) =>
    match inp.target_model_fields with
    | Option.none => Except.error (lit ("Target model does not exist"))
    | some model_fields => validateEntries model_fields mappings

/-- The defects the claim enumerates, as a predicate on one entry against
the target model's fields (an entry that is not an object lacks both keys;
a missing target model has no fields). -/
def entryDefective (model_fields : List Str) : MappingEntry → Bool
  | .notDict => true
  | .dict kv =>
    (alookup kSourceField kv).isNone ||
    (match alookup kTargetField kv with
     | Option.none => true
     | some tf => decide (tf ∉ model_fields)) ||
    decide (((alookup kTransform kv).getD tDirect) ∉ validTransforms)

/-- The claim's defect list for a whole descriptor: unparseable (or
absent) mappings text, an empty mappings list, or a defective entry. -/
def descriptorDefective (inp : ValidateInput) : Bool :=
  match inp.field_mappings with
  | Option.none => true
  | some (.error _) => true
  | some (.ok mappings) =>
    mappings.isEmpty ||
      mappings.any (entryDefective (inp.target_model_fields.getD []))

theorem validateEntries_ok_iff (model_fields : List Str) (l : List MappingEntry) :
    validateEntries model_fields l = Except.ok true ↔
      l.any (entryDefective model_fields) = false := by
  induction l with
  | nil => simp [validateEntries]
  | cons e rest ih =>
    cases e with
    | notDict => simp [validateEntries, entryDefective]
    | dict kv =>
      rw [List.any_cons]
      unfold validateEntries
      by_cases h1 : (alookup kSourceField kv).isNone
      · simp [h1, entryDefective]
      · rw [if_neg h1]
        cases h2 : alookup kTargetField kv with
        | none => simp [entryDefective, h1, h2]
        | some tf =>
          dsimp only
          by_cases h3 : tf ∉ model_fields
          · simp [entryDefective, h1, h2, h3, if_pos h3]
          · rw [if_neg h3]
            by_cases h4 : ((alookup kTransform kv).getD tDirect) ∉ validTransforms
            · simp [entryDefective, h1, h2, h3, h4, if_pos h4]
            · rw [if_neg h4, ih]
              simp [entryDefective, h1, h2, h3, h4]

theorem entryDefective_no_model (e : MappingEntry) : entryDefective [] e = true := by
  cases e with
  | notDict => rfl
  | dict kv =>
    unfold entryDefective
    cases h2 : alookup kTargetField kv <;> simp [h2]

theorem validateEntries_never_false (model_fields : List Str) (l : List MappingEntry) :
    validateEntries model_fields l = Except.ok true ∨
      ∃ e, validateEntries model_fields l = Except.error e := by
  induction l with
  | nil => exact Or.inl rfl
  | cons e rest ih =>
    cases e with
    | notDict => exact Or.inr ⟨_, rfl⟩
    | dict kv =>
      unfold validateEntries
      by_cases h1 : (alookup kSourceField kv).isNone
      · rw [if_pos h1]
        exact Or.inr ⟨_, rfl⟩
      · rw [if_neg h1]
        cases h2 : alookup kTargetField kv with
        | none => exact Or.inr ⟨_, rfl⟩
        | some tf =>
          dsimp only
          by_cases h3 : tf ∉ model_fields
          · rw [if_pos h3]
            exact Or.inr ⟨_, rfl⟩
          · rw [if_neg h3]
            by_cases h4 : ((alookup kTransform kv).getD tDirect) ∉ validTransforms
            · rw [if_pos h4]
              exact Or.inr ⟨_, rfl⟩
            · rw [if_neg h4]
              exact ih

/-- C6: `validate_mapping` accepts (returns `True`) exactly the
descriptors with none of the enumerated defects — unparseable or absent
mappings text, an empty mappings list, an entry lacking `source_field` or
`target_field` (a non-object entry lacks both), a `target_field` absent
from the target model's fields (a missing model has none), or a transform
outside the seven enumerated kinds — and every other descriptor is
rejected with an error. -/
theorem C6_validate_mapping_exact :
    (∀ inp : ValidateInput,
      validate_mapping inp = Except.ok true ↔ descriptorDefective inp = false) ∧
    (∀ inp : ValidateInput, validate_mapping inp = Except.ok true ∨
      ∃ e, validate_mapping inp = Except.error e) := by
  constructor
  · intro inp
    obtain ⟨fm, mf⟩ := inp
    rcases fm with _ | fm
    · simp [validate_mapping, descriptorDefective]
    · rcases fm with e | l
      · simp [validate_mapping, descriptorDefective]
      · cases l with
        | nil => simp [validate_mapping, descriptorDefective]
        | cons m rest =>
          rcases mf with _ | mf
          · simp only [validate_mapping, descriptorDefective]
            constructor
            · intro h
              exact absurd h (by simp)
            · intro h
              exfalso
              simp only [Option.getD_none, List.isEmpty_cons, Bool.false_or,
                List.any_cons, Bool.or_eq_false_iff] at h
              rw [entryDefective_no_model m] at h
              exact absurd h.1 (by simp)
          · simp only [validate_mapping, descriptorDefective, Option.getD_some]
            rw [validateEntries_ok_iff]
            simp
  · intro inp
    obtain ⟨fm, mf⟩ := inp
    rcases fm with _ | fm
    · exact Or.inr ⟨_, rfl⟩
    · rcases fm with e | l
      · exact Or.inr ⟨_, rfl⟩
      · cases l with
        | nil => exact Or.inr ⟨_, rfl⟩
        | cons m rest =>
          rcases mf with _ | mf
          · exact Or.inr ⟨_, rfl⟩
          · exact validateEntries_never_false mf (m :: rest)

/-! ## Row transformation (C10) -/

/-- The per-entry transform application inside `_prepare_record_data`
(sql_import_job.py lines 599-643).  `dateParse` / `dtParse` stand for
`dateutil.parser.parse` with `.date()` / as is; an `Except.error` is the
`UserError('Transform error …')` raised by the wrapping `except` block. -/
def applyTransform (fr : ℚ → Str) (dateParse : Str → Option PyDate)
    (dtParse : Str → Option PyDateTime) (t : Str) (v : PyVal) :
    Except Str PyVal :=
  if t = tDirect then Except.ok v
  else if t = tBool then
    Except.ok (if v = PyVal.none then PyVal.bool false else PyVal.bool (truthy v))
  else if t = tInt then
    (if v = PyVal.none then Except.ok (PyVal.bool false)
     else match pyInt v with
       | some n => Except.ok (PyVal.int n)
       | Option.none => Except.error (lit ("Transform error")))
  else if t = tFloat then
    (if v = PyVal.none then Except.ok (PyVal.bool false)
     else match pyFloat v with
       | some q => Except.ok (PyVal.float q)
       | Option.none => Except.error (lit ("Transform error")))
  else if t = tStr then
    (if v = PyVal.none then Except.ok (PyVal.bool false)
     else if v = PyVal.str [] then Except.ok (PyVal.str [])
     else Except.ok (PyVal.str (pyStrip (pyStr fr v))))
  else if t = tDate then
    (if truthy v then
      (match v with
       | PyVal.str s =>
         (match dateParse s with
          | some d => Except.ok (PyVal.date d)
          | Option.none => Except.error (lit ("Transform error")))
       | PyVal.datetime tt => Except.ok (PyVal.date ⟨tt.year, tt.month, tt.day⟩)
       | w => Except.ok w)
     else Except.ok (PyVal.bool false))
  else if t = tDatetime then
    (if truthy v then
      (match v with
       | PyVal.str s =>
         (match dtParse s with
          | some d => Except.ok (PyVal.datetime d)
          | Option.none => Except.error (lit ("Transform error")))
       | w => Except.ok w)
     else Except.ok (PyVal.bool false))
  else Except.ok v

/-- The row transformer `_prepare_record_data` (sql_import_job.py lines 589-648): walks the
entries positionally, building the target-field assignments in order;
`row[i]` out of range is the uncaught `IndexError` of line 594. -/
def prepareRecordData (fr : ℚ → Str) (dateParse : Str → Option PyDate)
    (dtParse : Str → Option PyDateTime) (row : List PyVal) :
    List FieldMap → ℕ → Except Str (List (Str × PyVal))
  | [], _ => Except.ok []
  | m :: ms, i =>
    match row.get? i with
    | Option.none => Except.error (lit ("IndexError"))
    | some v =>
      match applyTransform fr dateParse dtParse m.getTransform v with
      | Except.error e => Except.error e
      | Except.ok w =>
        match prepareRecordData fr dateParse dtParse row ms (i + 1) with
        | Except.error e => Except.error e
        | Except.ok rest => Except.ok ((m.target_field, w) :: rest)

theorem applyTransform_unknown (fr : ℚ → Str) (dateParse : Str → Option PyDate)
    (dtParse : Str → Option PyDateTime) (t : Str) (v : PyVal)
    (ht : t ∉ validTransforms) :
    applyTransform fr dateParse dtParse t v = Except.ok v := by
  simp only [validTransforms, List.mem_cons, List.not_mem_nil, or_false, not_or] at ht
  obtain ⟨h1, h2, h3, h4, h5, h6, h7⟩ := ht
  unfold applyTransform
  rw [if_neg h1, if_neg h2, if_neg h3, if_neg h4, if_neg h5, if_neg h6, if_neg h7]

theorem prepareRecordData_unknown (fr : ℚ → Str) (dateParse : Str → Option PyDate)
    (dtParse : Str → Option PyDateTime) (row : List PyVal) :
    ∀ (fms : List FieldMap) (i : ℕ),
      (∀ m ∈ fms, m.getTransform ∉ validTransforms) →
      i + fms.length ≤ row.length →
      prepareRecordData fr dateParse dtParse row fms i =
        Except.ok ((fms.zip ((row.drop i).take fms.length)).map
          (fun p => (p.1.target_field, p.2))) := by
  intro fms
  induction fms with
  | nil => intro i _ _; rfl
  | cons m ms ih =>
    intro i hunk hlen
    have hi : i < row.length := by
      rw [List.length_cons] at hlen
      omega
    have hget : row.get? i = some (row.get ⟨i, hi⟩) := List.get?_eq_get hi
    have hdrop : row.drop i = row.get ⟨i, hi⟩ :: row.drop (i + 1) :=
      List.drop_eq_getElem_cons hi
    unfold prepareRecordData
    rw [hget]
    dsimp only
    rw [applyTransform_unknown fr dateParse dtParse _ _
      (hunk m (List.mem_cons_self _ _))]
    dsimp only
    rw [ih (i + 1) (fun x hx => hunk x (List.mem_cons_of_mem _ hx))
      (by rw [List.length_cons] at hlen; omega)]
    dsimp only
    rw [hdrop, List.length_cons, List.take_succ_cons, List.zip_cons_cons,
      List.map_cons]

/-- C10: a field-mapping entry whose transform string is not one of the
seven enumerated kinds raises no error in `_prepare_record_data`: the
per-entry dispatch falls through to the final `else` and assigns the raw
source value unchanged, and a row prepared under only such entries yields
exactly the raw values, positionally paired with the target fields. -/
theorem C10_unknown_transform_is_direct (fr : ℚ → Str)
    (dateParse : Str → Option PyDate) (dtParse : Str → Option PyDateTime) :
    (∀ t v, t ∉ validTransforms →
      applyTransform fr dateParse dtParse t v = Except.ok v) ∧
    (∀ row fms, (∀ m ∈ fms, m.getTransform ∉ validTransforms) →
      fms.length ≤ row.length →
      prepareRecordData fr dateParse dtParse row fms 0 =
        Except.ok ((fms.zip (row.take fms.length)).map
          (fun p => (p.1.target_field, p.2)))) := by
  refine ⟨fun t v ht => applyTransform_unknown fr dateParse dtParse t v ht, ?_⟩
  intro row fms hunk hlen
  have h := prepareRecordData_unknown fr dateParse dtParse row fms 0 hunk
    (by omega)
  rw [h, List.drop_zero]

/-- C10 witness: a one-entry mapping with the unknown transform
`"upper"` prepares the raw value unchanged. -/
theorem C10_unknown_transform_is_direct_witness :
    prepareRecordData someFloatRepr (fun _ => Option.none) (fun _ => Option.none)
        [PyVal.int 42]
        [⟨lit ("a"), lit ("b"), some (lit ("upper"))⟩] 0 =
      Except.ok [(lit ("b"), PyVal.int 42)] := by
  have h := (C10_unknown_transform_is_direct someFloatRepr
    (fun _ => Option.none) (fun _ => Option.none)).2
    [PyVal.int 42] [⟨lit ("a"), lit ("b"), some (lit ("upper"))⟩]
    (by intro m hm; rw [List.mem_singleton] at hm; subst hm; decide)
    (by decide)
  rw [h]
  rfl


/-! ## The import loop (C1) -/

/-- The two progress counters `_run_import` mutates. -/
structure LoopState where
  imported : ℕ
  failed : ℕ
deriving DecidableEq

/-- The inner per-row loop of one batch (sql_import_job.py lines 167-179):
accumulate prepared records, count a failed row once, honour
`skip_errors`.  Returns the final counters, the prepared batch, the
counter states observed after each processed row, and whether a re-raised
exception aborted the run. -/
def runBatchRows {Row Rec : Type} (prep : Row → Option Rec) (skip : Bool) :
    List Row → LoopState → LoopState × List Rec × List LoopState × Bool
  | [], s => (s, [], [], false)
  | r :: rs, s =>
    match prep r with
    | some v =>
      let t := runBatchRows prep skip rs s
      (t.1, v :: t.2.1, s :: t.2.2.1, t.2.2.2)
    | Option.none =>
      let s1 : LoopState := ⟨s.imported, s.failed + 1⟩
      if skip then
        let t := runBatchRows prep skip rs s1
        (t.1, t.2.1, s1 :: t.2.2.1, t.2.2.2)
      else (s1, [], [s1], true)

/-- The batch-write step (lines 182-199): an empty batch is skipped; on
success `create` mode adds the batch size to `imported_records` (the
`update` / `create_update` stubs change nothing); on failure
`failed_records` grows by exactly the batch size and the run aborts unless
`skip_errors`. -/
def writeBatch {Rec : Type} (ok : Bool) (mode : Str) (skip : Bool)
    (recs : List Rec) (s : LoopState) : LoopState × Bool :=
  if recs.isEmpty then (s, false)
  else if ok then
    (if mode = lit ("create") then ⟨s.imported + recs.length, s.failed⟩ else s,
      false)
  else (⟨s.imported, s.failed + recs.length⟩, !skip)

/-- The batch loop of `_run_import` (lines 160-203): `batches` is the
chunk sequence `cursor.fetchmany(batch_size)` yields over the filtered
select, `writeOk k recs` the success of the k-th batch write.  The result
lists the counter state at every observation point: after each processed
row and at each post-batch commit. -/
def runImportLoop {Row Rec : Type} (prep : Row → Option Rec)
    (writeOk : ℕ → List Rec → Bool) (mode : Str) (skip : Bool) :
    ℕ → List (List Row) → LoopState → List LoopState
  | _, [], _ => []
  | k, b :: bs, s =>
    let t := runBatchRows prep skip b s
    if t.2.2.2 then t.2.2.1
    else
      let w := writeBatch (writeOk k t.2.1) mode skip t.2.1 t.1
      if w.2 then t.2.2.1 ++ [w.1]
      else (t.2.2.1 ++ [w.1]) ++ runImportLoop prep writeOk mode skip (k + 1) bs w.1

theorem runBatchRows_spec {Row Rec : Type} (prep : Row → Option Rec) (skip : Bool) :
    ∀ (rows : List Row) (s : LoopState),
      (runBatchRows prep skip rows s).1.imported = s.imported ∧
      (runBatchRows prep skip rows s).1.failed +
          (runBatchRows prep skip rows s).2.1.length ≤ s.failed + rows.length ∧
      (∀ t ∈ (runBatchRows prep skip rows s).2.2.1,
        t.imported = s.imported ∧ t.failed ≤ s.failed + rows.length) := by
  intro rows
  induction rows with
  | nil =>
    intro s
    exact ⟨rfl, by simp [runBatchRows], by simp [runBatchRows]⟩
  | cons r rs ih =>
    intro s
    unfold runBatchRows
    cases hp : prep r with
    | some v =>
      obtain ⟨h1, h2, h3⟩ := ih s
      refine ⟨h1, ?_, ?_⟩
      · simp only [List.length_cons]
        omega
      · intro t ht
        rcases List.mem_cons.mp ht with rfl | ht
        · exact ⟨rfl, by simp⟩
        · obtain ⟨ha, hb⟩ := h3 t ht
          exact ⟨ha, by simp only [List.length_cons]; omega⟩
    | none =>
      by_cases hskip : skip
      · rw [if_pos hskip]
        obtain ⟨h1, h2, h3⟩ := ih ⟨s.imported, s.failed + 1⟩
        refine ⟨h1, ?_, ?_⟩
        · simp only [List.length_cons]
          dsimp only at h2
          omega
        · intro t ht
          rcases List.mem_cons.mp ht with rfl | ht
          · exact ⟨rfl, by simp⟩
          · obtain ⟨ha, hb⟩ := h3 t ht
            exact ⟨ha, by simp only [List.length_cons] at hb ⊢; omega⟩
      · rw [if_neg hskip]
        refine ⟨rfl, by simp, ?_⟩
        intro t ht
        rw [List.mem_singleton] at ht
        subst ht
        exact ⟨rfl, by simp⟩

theorem writeBatch_spec {Rec : Type} (ok : Bool) (mode : Str) (skip : Bool)
    (recs : List Rec) (s : LoopState) :
    (writeBatch ok mode skip recs s).1.imported +
        (writeBatch ok mode skip recs s).1.failed ≤
      s.imported + s.failed + recs.length := by
  unfold writeBatch
  split_ifs <;> simp <;> omega

theorem runImportLoop_spec {Row Rec : Type} (prep : Row → Option Rec)
    (writeOk : ℕ → List Rec → Bool) (mode : Str) (skip : Bool) :
    ∀ (bs : List (List Row)) (k : ℕ) (s : LoopState),
      ∀ t ∈ runImportLoop prep writeOk mode skip k bs s,
        t.imported + t.failed ≤ s.imported + s.failed + (bs.map List.length).sum := by
  intro bs
  induction bs with
  | nil => intro k s t ht; simp [runImportLoop] at ht
  | cons b rest ih =>
    intro k s t ht
    unfold runImportLoop at ht
    obtain ⟨h1, h2, h3⟩ := runBatchRows_spec prep skip b s
    have hw := writeBatch_spec (writeOk k (runBatchRows prep skip b s).2.1) mode skip
      (runBatchRows prep skip b s).2.1 (runBatchRows prep skip b s).1
    by_cases hab : (runBatchRows prep skip b s).2.2.2
    · rw [if_pos hab] at ht
      obtain ⟨ha, hb⟩ := h3 t ht
      simp only [List.map_cons, List.sum_cons]
      omega
    · rw [if_neg hab] at ht
      by_cases hw2 : (writeBatch (writeOk k (runBatchRows prep skip b s).2.1) mode skip
          (runBatchRows prep skip b s).2.1 (runBatchRows prep skip b s).1).2
      · rw [if_pos hw2] at ht
        rcases List.mem_append.mp ht with ht | ht
        · obtain ⟨ha, hb⟩ := h3 t ht
          simp only [List.map_cons, List.sum_cons]
          omega
        · rw [List.mem_singleton] at ht
          subst ht
          simp only [List.map_cons, List.sum_cons]
          omega
      · rw [if_neg hw2] at ht
        rcases List.mem_append.mp ht with ht | ht
        · rcases List.mem_append.mp ht with ht | ht
          · obtain ⟨ha, hb⟩ := h3 t ht
            simp only [List.map_cons, List.sum_cons]
            omega
          · rw [List.mem_singleton] at ht
            subst ht
            simp only [List.map_cons, List.sum_cons]
            omega
        · have := ih (k + 1)
            (writeBatch (writeOk k (runBatchRows prep skip b s).2.1) mode skip
              (runBatchRows prep skip b s).2.1 (runBatchRows prep skip b s).1).1 t ht
          simp only [List.map_cons, List.sum_cons] at this ⊢
          omega

/-- C1: starting from the reset counters, at every observation point of
the import loop — after each processed row and at each post-batch commit —
the counters satisfy `0 ≤ imported + failed ≤ total_records`, where
`total_records` is the source table's row count and the loop consumes the
filtered rows in batches; moreover a row that fails preparation increments
`failed_records` by exactly one (and a prepared row changes no counter),
and a failed batch write increments `failed_records` by exactly the
batch's size. -/
theorem C1_progress_counter_invariant {Row Rec : Type}
    (table : List Row) (phi : Row → Bool) (prep : Row → Option Rec)
    (writeOk : ℕ → List Rec → Bool) (mode : Str) (skip : Bool)
    (batches : List (List Row)) (hb : batches.flatten = table.filter phi) :
    (∀ t ∈ runImportLoop prep writeOk mode skip 0 batches ⟨0, 0⟩,
      0 ≤ t.imported + t.failed ∧ t.imported + t.failed ≤ table.length) ∧
    (∀ r s, prep r = Option.none →
      (runBatchRows prep skip [r] s).1 = ⟨s.imported, s.failed + 1⟩) ∧
    (∀ r v s, prep r = some v → (runBatchRows prep skip [r] s).1 = s) ∧
    (∀ k (recs : List Rec) s, recs ≠ [] → writeOk k recs = false →
      (writeBatch (writeOk k recs) mode skip recs s).1 =
        ⟨s.imported, s.failed + recs.length⟩) := by
  refine ⟨?_, ?_, ?_, ?_⟩
  · intro t ht
    have hsum : (batches.map List.length).sum = (table.filter phi).length := by
      rw [← hb, ← List.length_flatten]
    have hle : (table.filter phi).length ≤ table.length := List.length_filter_le _ _
    have hrun := runImportLoop_spec prep writeOk mode skip batches 0 ⟨0, 0⟩ t ht
    dsimp only at hrun
    constructor
    · omega
    · omega
  · intro r s hp
    unfold runBatchRows
    rw [hp]
    by_cases hskip : skip
    · rw [if_pos hskip]
      rfl
    · rw [if_neg hskip]
  · intro r v s hp
    unfold runBatchRows
    rw [hp]
    rfl
  · intro k recs s hne hok
    unfold writeBatch
    rw [if_neg (by simpa using hne), hok]
    rw [if_neg (by simp)]

/-- C1 witness: the invariant evaluated at the final commit state
`⟨1, 2⟩` of a concrete two-batch run with one failing row and one failed
batch write over a four-row table. -/
theorem C1_progress_counter_invariant_witness :
    0 ≤ (⟨1, 2⟩ : LoopState).imported + (⟨1, 2⟩ : LoopState).failed ∧
    (⟨1, 2⟩ : LoopState).imported + (⟨1, 2⟩ : LoopState).failed ≤
      ([1, 2, 3, 4] : List ℕ).length :=
  (C1_progress_counter_invariant [1, 2, 3, 4] (fun r => r ≤ 3)
    (fun r : ℕ => if r = 2 then Option.none else some r)
    (fun k _ => k = 0) (lit ("create")) true [[1, 2], [3]] (by decide)).1
    ⟨1, 2⟩ (by decide)


/-! ## The job state machine (C5) -/

/-- Job lifecycle states. -/
inductive JState where
  | draft
  | running
  | done
  | error
  | cancelled
deriving DecidableEq

/-- The job fields `action_start` reads and writes. -/
structure Job where
  state : JState
  imported_records : ℕ
  failed_records : ℕ
  total_records : ℕ
  log_entries : Str
  error_message : Option Str
  start_date : Option ℕ
  end_date : Option ℕ
deriving DecidableEq

/-- The reset write of `action_start` (sql_import_job.py lines 91-98). -/
def startReset (j : Job) (t : ℕ) : Job :=
  { j with
      state := JState.running
      start_date := some t
      log_entries := []
      imported_records := 0
      failed_records := 0
      error_message := Option.none }

/-- The start action `action_start` (sql_import_job.py lines 84-118).  `run` abstracts
`_run_import`: from the job after the reset write (with the
'Starting import job' line `line` appended) to either the mutated job or
an exception paired with the partially mutated job.  `t1` / `t2` are the
start and end timestamps; the first component of the result is the
re-raised exception, if any. -/
def action_start (j : Job) (t1 t2 : ℕ) (line : Str)
    (run : Job → Except (Str × Job) Job) : Option Str × Job :=
  if j.state ≠ JState.draft then
    (some (lit ("Job must be in draft state to start")), j)
  else
    let j2 := { startReset j t1 with log_entries := (startReset j t1).log_entries ++ line }
    match run j2 with
    | Except.ok j3 =>
      (Option.none, { j3 with state := JState.done, end_date := some t2 })
    | Except.error (msg, j3) =>
      (some msg,
        { j3 with
            state := JState.error
            end_date := some t2
            error_message := some msg })

/-- C5: `action_start` is legal only from `draft` — from any other state it
raises and returns the job unchanged; from `draft` the reset write zeroes
both counters, clears the log and the error message, sets `running` and
records the start time; a completed call leaves the job in `done` or
`error` (never `draft`), so a second `start` on the same job raises and
changes nothing. -/
theorem C5_action_start_state_machine :
    (∀ j t1 t2 line run, j.state ≠ JState.draft →
      action_start j t1 t2 line run =
        (some (lit ("Job must be in draft state to start")), j)) ∧
    (∀ j t, (startReset j t).imported_records = 0 ∧
      (startReset j t).failed_records = 0 ∧
      (startReset j t).log_entries = [] ∧
      (startReset j t).error_message = Option.none ∧
      (startReset j t).state = JState.running ∧
      (startReset j t).start_date = some t) ∧
    (∀ j t1 t2 line run, j.state = JState.draft →
      (action_start j t1 t2 line run).2.state = JState.done ∨
      (action_start j t1 t2 line run).2.state = JState.error) ∧
    (∀ j t1 t2 line run t3 t4 line2 run2, j.state = JState.draft →
      (action_start (action_start j t1 t2 line run).2 t3 t4 line2 run2).1 =
          some (lit ("Job must be in draft state to start")) ∧
      (action_start (action_start j t1 t2 line run).2 t3 t4 line2 run2).2 =
        (action_start j t1 t2 line run).2) := by
  have hshape : ∀ j t1 t2 line run, j.state = JState.draft →
      (action_start j t1 t2 line run).2.state = JState.done ∨
      (action_start j t1 t2 line run).2.state = JState.error := by
    intro j t1 t2 line run hdraft
    unfold action_start
    rw [if_neg (by simp [hdraft])]
    dsimp only
    cases run { startReset j t1 with
        log_entries := (startReset j t1).log_entries ++ line } with
    | ok j3 => exact Or.inl rfl
    | error p =>
      obtain ⟨msg, j3⟩ := p
      exact Or.inr rfl
  have hreject : ∀ j t1 t2 line run, j.state ≠ JState.draft →
      action_start j t1 t2 line run =
        (some (lit ("Job must be in draft state to start")), j) := by
    intro j t1 t2 line run h
    unfold action_start
    rw [if_pos (by simpa using h)]
  refine ⟨hreject, fun j t => ⟨rfl, rfl, rfl, rfl, rfl, rfl⟩, hshape, ?_⟩
  intro j t1 t2 line run t3 t4 line2 run2 hdraft
  have hne : (action_start j t1 t2 line run).2.state ≠ JState.draft := by
    rcases hshape j t1 t2 line run hdraft with h | h <;> rw [h] <;> decide
  rw [hreject _ t3 t4 line2 run2 hne]
  exact ⟨rfl, rfl⟩

/-- C5 witness: a concrete draft job started twice — the reset fields, the
final state after the first call, and the rejection of the second call. -/
theorem C5_action_start_state_machine_witness :
    (startReset ⟨JState.draft, 5, 6, 7, lit ("old"), some (lit ("boom")),
        Option.none, Option.none⟩ 11).imported_records = 0 ∧
    (action_start (action_start ⟨JState.draft, 5, 6, 7, lit ("old"),
        some (lit ("boom")), Option.none, Option.none⟩ 11 12 (lit ("L"))
        Except.ok).2 13 14 (lit ("L2")) Except.ok).1 =
      some (lit ("Job must be in draft state to start")) := by
  refine ⟨(C5_action_start_state_machine.2.1 _ 11).1, ?_⟩
  exact ((C5_action_start_state_machine.2.2.2 _ 11 12 (lit ("L")) Except.ok
    13 14 (lit ("L2")) Except.ok rfl).1)

/-! ## The count and select queries (C2) -/

/-- The structured form of the SQL texts `_run_import` builds: a
`SELECT COUNT(*)` or a projection over a schema-qualified table with an
optional verbatim WHERE clause. -/
inductive SqlQuery where
  | countAll (schema table : Str)
  | select (fields : List Str) (schema table : Str) (whereClause : Option Str)
deriving DecidableEq

/-- The mapping attributes `_run_import` reads when building its queries;
`source_filter` is the raw text (the falsy empty text means no filter). -/
structure QueryMapping where
  schema_name : Str
  table_name : Str
  source_filter : Str
  source_fields : List Str

/-- The count query of sql_import_job.py lines 138-141: no WHERE clause is
attached. -/
def buildCountQuery (m : QueryMapping) : SqlQuery :=
  SqlQuery.countAll m.schema_name m.table_name

/-- The select query of lines 152-157: the filter is attached verbatim
when the text is truthy. -/
def buildSelectQuery (m : QueryMapping) : SqlQuery :=
  SqlQuery.select m.source_fields m.schema_name m.table_name
    (if m.source_filter = [] then Option.none else some m.source_filter)

/-- The rows a query yields over a table, `evalPred` giving the SQL
semantics of a WHERE text on a row. -/
def rowsOf {Row : Type} (evalPred : Str → Row → Bool) (tbl : List Row) :
    SqlQuery → List Row
  | .countAll _ _ => tbl
  | .select _ _ _ w =>
    match w with
    | Option.none => tbl
    | some p => tbl.filter (evalPred p)

/-- What `cursor.fetchone()[0]` of the count query returns. -/
def runCount {Row : Type} (evalPred : Str → Row → Bool) (tbl : List Row)
    (q : SqlQuery) : ℕ := (rowsOf evalPred tbl q).length

/-- C2 (code bug): the count query never carries a WHERE clause even when
the mapping has a `source_filter`, while the row-streaming select applies
the filter verbatim; on a two-row table whose filter keeps one row,
`total_records` is 2 but the select yields 1 row. -/
theorem C2_count_ignores_filter :
    (∀ m : QueryMapping, buildCountQuery m =
      SqlQuery.countAll m.schema_name m.table_name) ∧
    runCount (fun _ r => decide (r = 1)) [1, 2]
        (buildCountQuery ⟨lit ("dbo"), lit ("T"), lit ("id = 1"), [lit ("id")]⟩) = 2 ∧
    (rowsOf (fun _ r => decide (r = 1)) [1, 2]
        (buildSelectQuery ⟨lit ("dbo"), lit ("T"), lit ("id = 1"), [lit ("id")]⟩)).length
      = 1 := by
  exact ⟨fun m => rfl, by decide, by decide⟩

/-! ## Password encryption round-trip (C9) -/

/-- The external cryptographic collaborators of `password_mixin.py`,
abstracted over a byte type `B`: base64, UTF-8, PBKDF2 and Fernet.
`nonce` folds Fernet's random IV and timestamp; `isEmpty` is byte-string
falsiness. -/
structure CryptoEnv (B : Type) where
  b64encode : B → B
  b64decode : B → B
  b64urlencode : B → B
  utf8encode : Str → B
  utf8decode : B → Option Str
  pbkdf2 : B → B → ℕ → B
  saltLit : B
  isEmpty : B → Bool
  fernetEncrypt : B → ℕ → B → B
  fernetDecrypt : B → B → Option B

/-- The library contracts the round-trip relies on; all hold of the real
`base64` / UTF-8 / `cryptography.fernet` implementations. -/
structure CryptoSpec {B : Type} (E : CryptoEnv B) : Prop where
  b64_roundtrip : ∀ b, E.b64decode (E.b64encode b) = b
  utf8_roundtrip : ∀ s, E.utf8decode (E.utf8encode s) = some s
  fernet_roundtrip : ∀ k n m, E.fernetDecrypt k (E.fernetEncrypt k n m) = some m
  fernet_token_nonempty : ∀ k n m, E.isEmpty (E.fernetEncrypt k n m) = false
  b64_nonempty : ∀ b, E.isEmpty b = false → E.isEmpty (E.b64encode b) = false

/-- The key derivation `_get_encryption_key` (password_mixin.py lines 17-29): PBKDF2 over the
fixed secret and salt, URL-safe base64-encoded — the same key on every
call. -/
def getEncryptionKey {B : Type} (E : CryptoEnv B) : B :=
  E.b64urlencode (E.pbkdf2
    (E.utf8encode (lit ("odoo_password_encryption_key_v1"))) E.saltLit 100000)

/-- The mixin method `encrypt_password` (password_mixin.py lines 31-52): `Option.none` is
the `False` return for falsy or boolean input; under the library contracts
the `try` body does not fail. -/
def encrypt_password {B : Type} (E : CryptoEnv B) (fr : ℚ → Str) (nonce : ℕ)
    (password : PyVal) : Option B :=
  if ¬ truthy password then Option.none
  else
    match password with
    | PyVal.bool _ => Option.none
    | w =>
      some (E.b64encode (E.fernetEncrypt (getEncryptionKey E) nonce
        (E.utf8encode (match w with
          | PyVal.str s => s
          | w2 => pyStr fr w2))))

/-- The mixin method `decrypt_password` (password_mixin.py lines 54-67): `Option.none` both
for the falsy-input early return and for any failure in the `try` body. -/
def decrypt_password {B : Type} (E : CryptoEnv B) (encrypted : Option B) :
    Option Str :=
  match encrypted with
  | Option.none => Option.none
  | some b =>
    if E.isEmpty b then Option.none
    else
      match E.fernetDecrypt (getEncryptionKey E) (E.b64decode b) with
      | Option.none => Option.none
      | some m => E.utf8decode m

/-- C9: with the mixin's fixed derived key, decrypting an encrypted
password recovers it exactly, for every non-empty string password and
every Fernet nonce, given the round-trip contracts of the library
collaborators. -/
theorem C9_password_roundtrip {B : Type} (E : CryptoEnv B) (hE : CryptoSpec E)
    (fr : ℚ → Str) (nonce : ℕ) (s : Str) (hs : s ≠ []) :
    decrypt_password E (encrypt_password E fr nonce (PyVal.str s)) = some s := by
  unfold encrypt_password
  rw [if_neg (by simp [truthy, hs])]
  show decrypt_password E (some (E.b64encode (E.fernetEncrypt (getEncryptionKey E)
    nonce (E.utf8encode s)))) = some s
  unfold decrypt_password
  dsimp only
  rw [if_neg ?hne]
  case hne =>
    intro hcon
    rw [hE.b64_nonempty _ (hE.fernet_token_nonempty (getEncryptionKey E) nonce
      (E.utf8encode s))] at hcon
    exact Bool.false_ne_true hcon
  rw [hE.b64_roundtrip, hE.fernet_roundtrip]
  show E.utf8decode (E.utf8encode s) = some s
  rw [hE.utf8_roundtrip]

/-- A toy instantiation of the crypto collaborators over `Str` satisfying
every contract, used to witness the round-trip. -/
def idCryptoEnv : CryptoEnv Str where
  b64encode := id
  b64decode := id
  b64urlencode := id
  utf8encode := id
  utf8decode := some
  pbkdf2 := fun k _ _ => k
  saltLit := []
  isEmpty := List.isEmpty
  fernetEncrypt := fun _ _ m => 'x' :: m
  fernetDecrypt := fun _ c =>
    match c with
    | 'x' :: m => some m
    | _ => Option.none

theorem idCryptoEnv_spec : CryptoSpec idCryptoEnv := by
  refine ⟨fun b => rfl, fun s => rfl, fun k n m => ?_, fun k n m => rfl,
    fun b h => h⟩
  show (if ('x' : Char) = 'x' then some m else Option.none) = some m
  rw [if_pos rfl]

/-- C9 witness: the round-trip evaluated on the toy collaborators at a
concrete password. -/
theorem C9_password_roundtrip_witness :
    decrypt_password idCryptoEnv
        (encrypt_password idCryptoEnv someFloatRepr 0 (PyVal.str (lit ("hunter2")))) =
      some (lit ("hunter2")) :=
  C9_password_roundtrip idCryptoEnv idCryptoEnv_spec someFloatRepr 0
    (lit ("hunter2")) (by decide)


end Migrator
